import Mathlib

/-
Shallow embedding of the sqlxmigrate migration engine
(package sqlxmigrate, file sqlxmigrate.go).

Modelling conventions:
* The database is a state `St`: whether the history table exists, its
  committed rows (one identifier per applied migration), the open
  transaction (`txOpen`, plus the DELETEs pending inside it), a counter
  of how many transactions were ever begun, and a trace of executed
  actions (forward actions, inverse actions, history DELETEs, the
  init-schema function).
* In the source, `insertMigration`, `migrationRan`,
  `canInitializeSchema` and `createMigrationTableIfNotExists` all go
  through `g.db` (auto-commit, outside the open transaction), while the
  user actions `migration.Migrate`/`migration.Rollback` and the history
  DELETE in `rollbackMigration` go through `g.tx`.  The model reflects
  this: history INSERTs mutate `committed` immediately, history DELETEs
  accumulate in `txDeletes` and reach `committed` only at `commit`.
* A user migration function is pure data: `Migrate`/`Rollback` are
  `Option Bool` — `none` models a nil Go function value (calling it
  panics), `some true` a function returning nil, `some false` a
  function returning an error.  Executing one appends a trace event.
* Fallible queries return in `Res`, with `Res.panicked` modelling a Go
  runtime panic (nil function call).  `db.Begin`/`tx.Commit` failures
  and driver-level connectivity failures are not modelled; the one
  persistence error the schema forces (unique violation on the history
  primary key, a missing history table) is.
* `defer g.rollback()` is modelled by `withDeferredRollback`, applied
  to the state of every outcome (Go runs deferred calls on error
  returns and during panics alike); `g.rollback` is a no-op once
  `commit` has set the transaction to nil.
-/

namespace Sqlxmigrate

/-- The reserved bootstrap identifier (`initSchemaMigrationID`). -/
def initSchemaMigrationID : String := "SCHEMA_INIT"

/-- Observable executions: a forward action, an inverse action, the
history-row DELETE issued by `rollbackMigration`, and the init-schema
function. -/
inductive Event where
  | migrateRun (id : String)
  | rollbackRun (id : String)
  | deleteRan (id : String)
  | initSchemaRun
deriving DecidableEq, Repr

/-- One migration step (struct `Migration`): an identifier, a forward
function and an inverse function.  `none` models a nil Go function
value; `some b` a function whose call returns nil iff `b`. -/
structure Migration where
  ID : String
  Migrate : Option Bool
  Rollback : Option Bool
deriving DecidableEq, Repr

/-- Database state visible to the engine. -/
structure St where
  tableExists : Bool
  committed : List String
  txOpen : Bool
  txDeletes : List String
  begins : Nat
  trace : List Event
deriving DecidableEq, Repr

/-- The closed error taxonomy of the package.  User-function errors
are `migrateFailed`/`rollbackFailed`/`initSchemaFailed`, tagged with
the step identifier; `noSuchTable` and `uniqueViolation` are the
persistence errors the model's schema can produce. -/
inductive Err where
  | errNoMigrationDefined
  | errMissingID
  | errNoRunMigration
  | errMigrationIDDoesNotExist
  | errRollbackImpossible
  | reservedIDError (id : String)
  | duplicatedIDError (id : String)
  | migrateFailed (id : String)
  | rollbackFailed (id : String)
  | initSchemaFailed
  | noSuchTable
  | uniqueViolation (id : String)
deriving DecidableEq, Repr

/-- Outcome of an engine call: normal return with a value, error
return, or a Go runtime panic (nil function call). -/
inductive Res (α : Type) where
  | ok (a : α) (s : St)
  | err (e : Err) (s : St)
  | panicked (s : St)
deriving DecidableEq, Repr

/-- The final state of an outcome. -/
def Res.state {α : Type} : Res α → St
  | .ok _ s => s
  | .err _ s => s
  | .panicked s => s

/-- Sequencing in the engine: Go's `if err := f(); err != nil { return
err }` early-return pattern (panics propagate likewise). -/
def Res.bind {α β : Type} : Res α → (α → St → Res β) → Res β
  | .ok a s, f => f a s
  | .err e s, _ => .err e s
  | .panicked s, _ => .panicked s

/-- The engine (struct `Sqlxmigrate`): the catalog and the optional
init-schema function (`none` = not registered; `some b` = registered,
returning nil iff `b`).  Options only name the table/column and do not
influence control flow, so they are not carried. -/
structure Engine where
  migrations : List Migration
  initSchema : Option Bool
deriving DecidableEq, Repr

/-- Append one trace event. -/
def addEvent (s : St) (e : Event) : St :=
  { s with trace := s.trace ++ [e] }

/-- Rows surviving the DELETEs accumulated in a transaction. -/
def applyDeletes (rows deletes : List String) : List String :=
  rows.filter (fun x => !(deletes.contains x))

/-- `hasMigrations`: an init-schema function is set or the catalog is
non-empty. -/
def hasMigrations (g : Engine) : Bool :=
  g.initSchema.isSome || !g.migrations.isEmpty

/-- Loop body of `checkReservedID`. -/
def checkReservedIDAux : List Migration → Option Err
  | [] => none
  | m :: rest =>
      if m.ID = initSchemaMigrationID then some (.reservedIDError m.ID)
      else checkReservedIDAux rest

/-- `checkReservedID`: first catalog entry using the reserved ID. -/
def checkReservedID (g : Engine) : Option Err :=
  checkReservedIDAux g.migrations

/-- Loop body of `checkDuplicatedID`, with the `lookup` set seen so
far. -/
def checkDuplicatedIDAux (seen : List String) : List Migration → Option Err
  | [] => none
  | m :: rest =>
      if seen.contains m.ID then some (.duplicatedIDError m.ID)
      else checkDuplicatedIDAux (m.ID :: seen) rest

/-- `checkDuplicatedID`: first catalog entry repeating an earlier ID. -/
def checkDuplicatedID (g : Engine) : Option Err :=
  checkDuplicatedIDAux [] g.migrations

/-- `checkIDExist`. -/
def checkIDExist (g : Engine) (migrationID : String) : Option Err :=
  if g.migrations.any (fun m => m.ID = migrationID) then none
  else some .errMigrationIDDoesNotExist

/-- `g.begin()`: open a fresh transaction (`db.Begin` failure is not
modelled). -/
def beginTx (s : St) : St :=
  { s with txOpen := true, txDeletes := [], begins := s.begins + 1 }

/-- `g.commit()`: apply the pending DELETEs and set `g.tx = nil`. -/
def commitTx (s : St) : St :=
  { s with txOpen := false, committed := applyDeletes s.committed s.txDeletes,
           txDeletes := [] }

/-- `g.rollback()`: discard the transaction if one is open. -/
def rollbackTx (s : St) : St :=
  if s.txOpen then { s with txOpen := false, txDeletes := [] } else s

/-- `defer g.rollback()`: runs on every exit path, panics included. -/
def withDeferredRollback {α : Type} : Res α → Res α
  | .ok a s => .ok a (rollbackTx s)
  | .err e s => .err e (rollbackTx s)
  | .panicked s => .panicked (rollbackTx s)

/-- `migrationRan`: `SELECT count(0) FROM <table> WHERE id = ?` via
`g.db` — it reads the committed rows, not the open transaction. -/
def migrationRan (m : Migration) (s : St) : Res Bool :=
  if s.tableExists then .ok (s.committed.contains m.ID) s
  else .err .noSuchTable s

/-- `canInitializeSchema`: the bootstrap row is absent and the total
row count is zero; both queries via `g.db`. -/
def canInitializeSchema (s : St) : Res Bool :=
  (migrationRan { ID := initSchemaMigrationID, Migrate := none, Rollback := none } s).bind
    fun ran s₁ =>
      if ran then .ok false s₁
      else if s₁.tableExists then .ok (s₁.committed.length == 0) s₁
      else .err .noSuchTable s₁

/-- `insertMigration`: `INSERT INTO <table> (id) VALUES (?)` via
`g.db` — auto-committed, outside the open transaction.  The history
column is a primary key, so a duplicate insert is a unique violation. -/
def insertMigration (id : String) (s : St) : Res Unit :=
  if !s.tableExists then .err .noSuchTable s
  else if s.committed.contains id then .err (.uniqueViolation id) s
  else .ok () { s with committed := s.committed ++ [id] }

/-- The database state once the history table is ensured. -/
def afterCreate (s : St) : St := { s with tableExists := true }

/-- `createMigrationTableIfNotExists`: probe via `HasTable`, create on
absence (DDL via `g.db`). -/
def createMigrationTableIfNotExists (s : St) : Res Unit :=
  if s.tableExists then .ok () s
  else .ok () { s with tableExists := true }

/-- `runMigration`: skip an empty ID, skip an already-ran step, else
run the forward action in the transaction; on forward failure call the
inverse action with no nil check (a nil inverse is a Go panic), log
but do not propagate its error, and return the forward error; on
forward success insert the history row. -/
def runMigration (migration : Migration) (s : St) : Res Unit :=
  if migration.ID.length = 0 then .err .errMissingID s
  else
    (migrationRan migration s).bind fun ran s₁ =>
      if ran then .ok () s₁
      else
        match migration.Migrate with
        | none => .panicked s₁
        | some mOk =>
            let s₂ := addEvent s₁ (.migrateRun migration.ID)
            if mOk then
              (insertMigration migration.ID s₂).bind fun _ s₃ => .ok () s₃
            else
              match migration.Rollback with
              | none => .panicked s₂
              | some _rOk =>
                  let s₃ := addEvent s₂ (.rollbackRun migration.ID)
                  .err (.migrateFailed migration.ID) s₃

/-- The `for` loop of `runInitSchema`: run every catalog step, with no
target cut-off. -/
def runMigrationList : List Migration → St → Res Unit
  | [], s => .ok () s
  | m :: rest, s =>
      (runMigration m s).bind fun _ s₁ => runMigrationList rest s₁

/-- `runInitSchema`: call the init-schema function (on `g.db`), record
the bootstrap row, then run every catalog step. -/
def runInitSchema (g : Engine) (s : St) : Res Unit :=
  match g.initSchema with
  | none => .panicked s
  | some isOk =>
      let s₁ := addEvent s .initSchemaRun
      if isOk then
        (insertMigration initSchemaMigrationID s₁).bind fun _ s₂ =>
          runMigrationList g.migrations s₂
      else .err .initSchemaFailed s₁

/-- The `for` loop of `migrate`: run each step in declaration order,
breaking after the step whose ID equals the non-empty target. -/
def migrateLoop (migrationID : String) : List Migration → St → Res Unit
  | [], s => .ok () s
  | m :: rest, s =>
      (runMigration m s).bind fun _ s₁ =>
        if migrationID ≠ "" ∧ m.ID = migrationID then .ok () s₁
        else migrateLoop migrationID rest s₁

/-- Tail of `migrate`: the step loop followed by `commit`. -/
def migrateTail (g : Engine) (migrationID : String) (s : St) : Res Unit :=
  (migrateLoop migrationID g.migrations s).bind fun _ s₁ => .ok () (commitTx s₁)

/-- Body of `migrate` after `begin`, covered by `defer g.rollback()`:
ensure the history table, take the init-schema path when eligible,
else run the step loop; commit on success. -/
def migrateBody (g : Engine) (migrationID : String) (s : St) : Res Unit :=
  (createMigrationTableIfNotExists s).bind fun _ s₁ =>
    match g.initSchema with
    | some _ =>
        (canInitializeSchema s₁).bind fun can s₂ =>
          if can then
            (runInitSchema g s₂).bind fun _ s₃ => .ok () (commitTx s₃)
          else migrateTail g migrationID s₂
    | none => migrateTail g migrationID s₁

/-- `migrate`: validation (no steps, reserved ID, duplicated ID), then
`begin`, the deferred rollback, and the body. -/
def migrate (g : Engine) (migrationID : String) (s : St) : Res Unit :=
  if !(hasMigrations g) then .err .errNoMigrationDefined s
  else
    match checkReservedID g with
    | some e => .err e s
    | none =>
        match checkDuplicatedID g with
        | some e => .err e s
        | none => withDeferredRollback (migrateBody g migrationID (beginTx s))

/-- The target `Migrate` computes: the last catalog entry's ID, or
empty when the catalog is empty (`targetMigrationID` in the source). -/
def lastMigrationID (ms : List Migration) : String :=
  match ms.getLast? with
  | some m => m.ID
  | none => ""

/-- `Migrate`: target the last catalog entry (empty target when the
catalog is empty). -/
def Migrate (g : Engine) (s : St) : Res Unit :=
  if !(hasMigrations g) then .err .errNoMigrationDefined s
  else migrate g (lastMigrationID g.migrations) s

/-- `MigrateTo`: check the target exists, then `migrate`. -/
def MigrateTo (g : Engine) (migrationID : String) (s : St) : Res Unit :=
  match checkIDExist g migrationID with
  | some e => .err e s
  | none => migrate g migrationID s

/-- `rollbackMigration`: fail on a nil inverse, run the inverse in the
transaction, then issue the history-row DELETE through the
transaction. -/
def rollbackMigration (m : Migration) (s : St) : Res Unit :=
  match m.Rollback with
  | none => .err .errRollbackImpossible s
  | some rOk =>
      let s₁ := addEvent s (.rollbackRun m.ID)
      if rOk then
        if s₁.tableExists then
          let s₂ := addEvent s₁ (.deleteRan m.ID)
          .ok () { s₂ with txDeletes := s₂.txDeletes ++ [m.ID] }
        else .err .noSuchTable s₁
      else .err (.rollbackFailed m.ID) s₁

/-- The descending `for` loop of `getLastRunMigration`, over the
reversed catalog. -/
def getLastRunMigrationAux : List Migration → St → Res Migration
  | [], s => .err .errNoRunMigration s
  | m :: rest, s =>
      (migrationRan m s).bind fun ran s₁ =>
        if ran then .ok m s₁ else getLastRunMigrationAux rest s₁

/-- `getLastRunMigration`: scan from the end for an applied step. -/
def getLastRunMigration (g : Engine) (s : St) : Res Migration :=
  getLastRunMigrationAux g.migrations.reverse s

/-- `RollbackLast`: empty catalog fails; else begin, find the last run
migration, undo it, commit. -/
def RollbackLast (g : Engine) (s : St) : Res Unit :=
  if g.migrations.isEmpty then .err .errNoMigrationDefined s
  else
    withDeferredRollback
      ((getLastRunMigration g (beginTx s)).bind fun m s₁ =>
        (rollbackMigration m s₁).bind fun _ s₂ => .ok () (commitTx s₂))

/-- The descending `for` loop of `RollbackTo`, over the reversed
catalog: stop at the target, undo each applied step on the way. -/
def rollbackToLoop (migrationID : String) : List Migration → St → Res Unit
  | [], s => .ok () s
  | m :: rest, s =>
      if m.ID = migrationID then .ok () s
      else
        (migrationRan m s).bind fun ran s₁ =>
          if ran then
            (rollbackMigration m s₁).bind fun _ s₂ => rollbackToLoop migrationID rest s₂
          else rollbackToLoop migrationID rest s₁

/-- `RollbackTo`: empty catalog fails, unknown target fails; else
begin, walk backwards undoing applied steps until the target, commit. -/
def RollbackTo (g : Engine) (migrationID : String) (s : St) : Res Unit :=
  if g.migrations.isEmpty then .err .errNoMigrationDefined s
  else
    match checkIDExist g migrationID with
    | some e => .err e s
    | none =>
        withDeferredRollback
          ((rollbackToLoop migrationID g.migrations.reverse (beginTx s)).bind
            fun _ s₁ => .ok () (commitTx s₁))

/-- `RollbackMigration`: begin, undo the given step (no membership, no
applied, no ID check), commit. -/
def RollbackMigration (m : Migration) (s : St) : Res Unit :=
  withDeferredRollback
    ((rollbackMigration m (beginTx s)).bind fun _ s₁ => .ok () (commitTx s₁))

/-- The error of an outcome, if it is an error return. -/
def Res.errOf {α : Type} : Res α → Option Err
  | .err e _ => some e
  | _ => none

/-- The spec's wording of the `isApplied` read, for comparison with
`migrationRan`: "reads through the same transactional context so
in-flight changes are visible", i.e. rows deleted by the still-open
transaction are already gone from the view it consults. -/
def migrationRanTxView (m : Migration) (s : St) : Res Bool :=
  if s.tableExists then .ok ((applyDeletes s.committed s.txDeletes).contains m.ID) s
  else .err .noSuchTable s

/-- The steps `migrateLoop` processes: declaration order, cut
inclusively at the first step matching a non-empty target. -/
def takeUpTo (migrationID : String) : List Migration → List Migration
  | [] => []
  | m :: rest =>
      if migrationID ≠ "" ∧ m.ID = migrationID then [m]
      else m :: takeUpTo migrationID rest

/-- Trace events produced by undoing the given steps in the given
order: for each, its inverse action, then its history DELETE. -/
def undoEvents (ms : List Migration) : List Event :=
  match ms with
  | [] => []
  | m :: rest => Event.rollbackRun m.ID :: Event.deleteRan m.ID :: undoEvents rest

/-- A fresh database: no history table yet, nothing applied. -/
def stFresh : St :=
  { tableExists := false, committed := [], txOpen := false, txDeletes := [],
    begins := 0, trace := [] }

/-- A database with an existing, empty history table. -/
def stTable : St := { stFresh with tableExists := true }

/-- A step whose forward and inverse actions both succeed. -/
def mkStep (id : String) : Migration :=
  { ID := id, Migrate := some true, Rollback := some true }

/-- Catalog for C2: step A succeeds, step B's forward action fails. -/
def gPartialFail : Engine :=
  { migrations := [mkStep "A", { ID := "B", Migrate := some false, Rollback := some true }],
    initSchema := none }

/-- Catalog for C4: one step whose forward action fails and whose
inverse action is nil. -/
def gNilInverse : Engine :=
  { migrations := [{ ID := "m1", Migrate := some false, Rollback := none }],
    initSchema := none }

/-- Companion catalog for C4: same failing step, with an inverse
action that itself fails. -/
def gFailingInverse : Engine :=
  { migrations := [{ ID := "m1", Migrate := some false, Rollback := some false }],
    initSchema := none }

/-- Catalog for C6: two healthy steps plus a registered initializer. -/
def gInitTwo : Engine :=
  { migrations := [mkStep "A", mkStep "B"], initSchema := some true }

/-- An engine with no steps and no initializer. -/
def gNoSteps : Engine := { migrations := [], initSchema := none }

/-- State for C3: history row "X" committed, and a transaction open
that has already issued the DELETE of "X" but not committed it. -/
def stPendingDelete : St :=
  { tableExists := true, committed := ["X"], txOpen := true, txDeletes := ["X"],
    begins := 1, trace := [] }

/-- Catalog of three healthy steps, for the rollback scenarios. -/
def gThree : Engine :=
  { migrations := [mkStep "A", mkStep "B", mkStep "C"], initSchema := none }

/-- C4 (code bug): a step whose forward action fails and whose inverse
action is nil makes `Migrate` panic — `runMigration` invokes
`migration.Rollback(g.tx)` with no nil check, a nil-function call —
instead of returning the forward error as the claim (and the package's
own `Rollback ... Can be nil` contract) requires.  With a non-nil
inverse the claimed behaviour does hold: the inverse runs, its own
failure is swallowed, and the original forward error is returned. -/
theorem c4_nil_inverse_panics :
    Migrate gNilInverse stFresh =
      .panicked { tableExists := true, committed := [], txOpen := false,
                  txDeletes := [], begins := 1,
                  trace := [.migrateRun "m1"] }
    ∧ Migrate gFailingInverse stFresh =
      .err (.migrateFailed "m1")
        { tableExists := true, committed := [], txOpen := false,
          txDeletes := [], begins := 1,
          trace := [.migrateRun "m1", .rollbackRun "m1"] } := by
  constructor <;> rfl

/-- C2 (counterexample): history is not unchanged on error.  With step
A succeeding and step B's forward action failing, `Migrate` returns
B's forward error, yet A's `AppliedRecord` is already committed:
`insertMigration` writes through `g.db`, outside the transaction that
gets rolled back. -/
theorem c2_counterexample :
    Migrate gPartialFail stFresh =
      .err (.migrateFailed "B")
        { tableExists := true, committed := ["A"], txOpen := false,
          txDeletes := [], begins := 1,
          trace := [.migrateRun "A", .migrateRun "B", .rollbackRun "B"] }
    ∧ (Migrate gPartialFail stFresh).state.committed ≠ stFresh.committed := by
  constructor <;> first | rfl | decide

/-- C6 (counterexample): with an initializer registered and a fresh
database, `MigrateTo "A"` on the catalog [A, B] takes the bootstrap
path, which runs every catalog step unconditionally: B's forward
action executes even though B is declared after the target A. -/
theorem c6_counterexample :
    MigrateTo gInitTwo "A" stFresh =
      .ok () { tableExists := true, committed := ["SCHEMA_INIT", "A", "B"],
               txOpen := false, txDeletes := [], begins := 1,
               trace := [.initSchemaRun, .migrateRun "A", .migrateRun "B"] }
    ∧ Event.migrateRun "B" ∈ (MigrateTo gInitTwo "A" stFresh).state.trace := by
  constructor
  · rfl
  · decide

/-- C5 (counterexample): `RollbackTo` on an empty catalog with a
target that is (vacuously) not in the catalog returns
`ErrNoMigrationDefined`, not `ErrMigrationIDDoesNotExist`: the
empty-catalog check precedes the target-existence check. -/
theorem c5_counterexample :
    (RollbackTo gNoSteps "X" stFresh).errOf = some .errNoMigrationDefined
    ∧ (RollbackTo gNoSteps "X" stFresh).errOf ≠ some .errMigrationIDDoesNotExist := by
  constructor
  · rfl
  · decide

/-- C3 (counterexample): `migrationRan` does not read through the open
Transaction Scope.  In a state whose open transaction has already
issued the DELETE of row "X", the spec's transactional read
(`migrationRanTxView`) reports "X" as no longer applied, but
`migrationRan` — which queries through `g.db` — still reports it
applied: the in-flight change is invisible to it. -/
theorem c3_counterexample :
    migrationRan (mkStep "X") stPendingDelete = .ok true stPendingDelete
    ∧ migrationRanTxView (mkStep "X") stPendingDelete = .ok false stPendingDelete := by
  constructor <;> rfl

/-- C3 (amended): `migrationRan` reads directly against the base
connection, outside the Transaction Scope — its answer ignores the
transaction's pending deletes entirely.  An `AppliedRecord` inserted
earlier in the same operation is nevertheless visible to a later
`migrationRan`, because `insertMigration` also writes through the base
connection with immediate (auto-commit) effect, leaving the open
transaction untouched. -/
theorem c3_read_outside_tx (s s₁ : St) (id : String) (m : Migration)
    (hins : insertMigration id s = .ok () s₁) (hid : m.ID = id) :
    migrationRan m s₁ = .ok true s₁
    ∧ s₁.txOpen = s.txOpen ∧ s₁.txDeletes = s.txDeletes
    ∧ (∀ ds : List String,
        migrationRan m { s₁ with txDeletes := ds } = .ok true { s₁ with txDeletes := ds }) := by
  unfold insertMigration at hins
  by_cases ht : s.tableExists
  · by_cases hc : id ∈ s.committed
    · simp [ht, hc] at hins
    · simp [ht, hc] at hins
      subst hins
      refine ⟨?_, rfl, rfl, fun ds => ?_⟩ <;>
        simp [migrationRan, ht] <;> exact Or.inr hid
  · simp [ht] at hins

/-- Witness for C3: inserting "A" into an empty history table makes a
subsequent `migrationRan` for "A" report true. -/
theorem c3_witness :
    migrationRan (mkStep "A") { stTable with committed := ["A"] }
      = .ok true { stTable with committed := ["A"] } :=
  (c3_read_outside_tx stTable { stTable with committed := ["A"] } "A" (mkStep "A")
    rfl rfl).1

/-- C10: for a step with a non-nil, succeeding inverse action,
`RollbackMigration` runs the inverse and issues the history DELETE
unconditionally — no check that the step was ever applied, has a
non-empty identifier, or belongs to the catalog.  The state is
arbitrary apart from the history table existing (the DELETE statement
needs the table), so the result holds for never-applied steps too. -/
theorem c10_rollback_unconditional (m : Migration) (s : St)
    (hr : m.Rollback = some true) (ht : s.tableExists = true) :
    RollbackMigration m s =
      .ok () { s with
        begins := s.begins + 1, txOpen := false, txDeletes := [],
        committed := applyDeletes s.committed [m.ID],
        trace := s.trace ++ [.rollbackRun m.ID, .deleteRan m.ID] } := by
  simp [RollbackMigration, rollbackMigration, beginTx, addEvent, commitTx,
        withDeferredRollback, rollbackTx, Res.bind, hr, ht]

/-- Witness for C10: undoing the never-applied, out-of-catalog step
"ZZ" still runs its inverse action and issues its DELETE. -/
theorem c10_witness :
    RollbackMigration (mkStep "ZZ") { stTable with committed := ["A"] }
      = .ok () { tableExists := true, committed := ["A"], txOpen := false,
                 txDeletes := [], begins := 1,
                 trace := [.rollbackRun "ZZ", .deleteRan "ZZ"] } := by
  exact c10_rollback_unconditional (mkStep "ZZ") { stTable with committed := ["A"] }
    rfl rfl

@[simp] theorem Res.state_ok {α : Type} (a : α) (s : St) : (Res.ok a s).state = s := rfl

@[simp] theorem Res.state_err {α : Type} (e : Err) (s : St) :
    (Res.err (α := α) e s).state = s := rfl

@[simp] theorem Res.state_panicked {α : Type} (s : St) :
    (Res.panicked (α := α) s).state = s := rfl

@[simp] theorem Res.bind_ok {α β : Type} (a : α) (s : St) (f : α → St → Res β) :
    (Res.ok a s).bind f = f a s := rfl

@[simp] theorem Res.bind_err {α β : Type} (e : Err) (s : St) (f : α → St → Res β) :
    (Res.err e s).bind f = .err e s := rfl

@[simp] theorem Res.bind_panicked {α β : Type} (s : St) (f : α → St → Res β) :
    (Res.panicked s).bind f = .panicked s := rfl

@[simp] theorem afterCreate_tableExists (s : St) : (afterCreate s).tableExists = true := rfl

@[simp] theorem afterCreate_committed (s : St) : (afterCreate s).committed = s.committed := rfl

@[simp] theorem afterCreate_txOpen (s : St) : (afterCreate s).txOpen = s.txOpen := rfl

@[simp] theorem afterCreate_txDeletes (s : St) : (afterCreate s).txDeletes = s.txDeletes := rfl

@[simp] theorem afterCreate_begins (s : St) : (afterCreate s).begins = s.begins := rfl

@[simp] theorem afterCreate_trace (s : St) : (afterCreate s).trace = s.trace := rfl

theorem string_length_zero_iff (s : String) : s.length = 0 ↔ s = "" := by
  cases s with
  | mk data =>
    constructor
    · intro h
      have hd : data = [] := List.length_eq_zero.mp (by simpa using h)
      subst hd
      rfl
    · intro h
      rw [h]
      rfl

theorem applyDeletes_nil (rows : List String) : applyDeletes rows [] = rows := by
  simp [applyDeletes]

theorem runMigration_missing (m : Migration) (s : St) (h : m.ID = "") :
    runMigration m s = .err .errMissingID s := by
  rw [runMigration]
  simp [string_length_zero_iff, h]

theorem runMigration_noTable (m : Migration) (s : St) (h1 : m.ID ≠ "")
    (ht : s.tableExists = false) :
    runMigration m s = .err .noSuchTable s := by
  rw [runMigration]
  simp [string_length_zero_iff, h1, migrationRan, ht]

theorem runMigration_skip (m : Migration) (s : St) (h1 : m.ID ≠ "")
    (ht : s.tableExists = true) (h3 : m.ID ∈ s.committed) :
    runMigration m s = .ok () s := by
  rw [runMigration]
  simp [string_length_zero_iff, h1, migrationRan, ht, h3]

theorem runMigration_nilForward (m : Migration) (s : St) (h1 : m.ID ≠ "")
    (ht : s.tableExists = true) (h3 : m.ID ∉ s.committed) (hm : m.Migrate = none) :
    runMigration m s = .panicked s := by
  rw [runMigration]
  simp [string_length_zero_iff, h1, migrationRan, ht, h3, hm]

theorem runMigration_apply (m : Migration) (s : St) (h1 : m.ID ≠ "")
    (ht : s.tableExists = true) (h3 : m.ID ∉ s.committed) (hm : m.Migrate = some true) :
    runMigration m s =
      .ok () { s with
        committed := s.committed ++ [m.ID],
        trace := s.trace ++ [.migrateRun m.ID] } := by
  rw [runMigration]
  simp [string_length_zero_iff, h1, migrationRan, ht, h3, hm, insertMigration, addEvent]

theorem runMigration_failNilInverse (m : Migration) (s : St) (h1 : m.ID ≠ "")
    (ht : s.tableExists = true) (h3 : m.ID ∉ s.committed) (hm : m.Migrate = some false)
    (hr : m.Rollback = none) :
    runMigration m s = .panicked { s with trace := s.trace ++ [.migrateRun m.ID] } := by
  rw [runMigration]
  simp [string_length_zero_iff, h1, migrationRan, ht, h3, hm, hr, addEvent]

theorem runMigration_failed (m : Migration) (s : St) (r : Bool) (h1 : m.ID ≠ "")
    (ht : s.tableExists = true) (h3 : m.ID ∉ s.committed) (hm : m.Migrate = some false)
    (hr : m.Rollback = some r) :
    runMigration m s =
      .err (.migrateFailed m.ID)
        { s with trace := s.trace ++ [.migrateRun m.ID, .rollbackRun m.ID] } := by
  rw [runMigration]
  simp [string_length_zero_iff, h1, migrationRan, ht, h3, hm, hr, addEvent]

theorem runMigration_frame (m : Migration) (s : St) :
    (runMigration m s).state.tableExists = s.tableExists
    ∧ (runMigration m s).state.txOpen = s.txOpen
    ∧ (runMigration m s).state.txDeletes = s.txDeletes
    ∧ (runMigration m s).state.begins = s.begins
    ∧ (∃ c, (runMigration m s).state.committed = s.committed ++ c)
    ∧ (∃ t, (runMigration m s).state.trace = s.trace ++ t ∧ Event.initSchemaRun ∉ t) := by
  by_cases h1 : m.ID = ""
  · rw [runMigration_missing m s h1]
    exact ⟨rfl, rfl, rfl, rfl, ⟨[], by simp⟩, ⟨[], by simp, by simp⟩⟩
  by_cases ht : s.tableExists = true
  case neg =>
    have ht' : s.tableExists = false := by simpa using ht
    rw [runMigration_noTable m s h1 ht']
    exact ⟨rfl, rfl, rfl, rfl, ⟨[], by simp⟩, ⟨[], by simp, by simp⟩⟩
  by_cases h3 : m.ID ∈ s.committed
  · rw [runMigration_skip m s h1 ht h3]
    exact ⟨rfl, rfl, rfl, rfl, ⟨[], by simp⟩, ⟨[], by simp, by simp⟩⟩
  cases hm : m.Migrate with
  | none =>
      rw [runMigration_nilForward m s h1 ht h3 hm]
      exact ⟨rfl, rfl, rfl, rfl, ⟨[], by simp⟩, ⟨[], by simp, by simp⟩⟩
  | some b =>
      cases b with
      | true =>
          rw [runMigration_apply m s h1 ht h3 hm]
          exact ⟨rfl, rfl, rfl, rfl, ⟨[m.ID], rfl⟩,
            ⟨[.migrateRun m.ID], rfl, by simp⟩⟩
      | false =>
          cases hr : m.Rollback with
          | none =>
              rw [runMigration_failNilInverse m s h1 ht h3 hm hr]
              exact ⟨rfl, rfl, rfl, rfl, ⟨[], by simp⟩,
                ⟨[.migrateRun m.ID], rfl, by simp⟩⟩
          | some r =>
              rw [runMigration_failed m s r h1 ht h3 hm hr]
              exact ⟨rfl, rfl, rfl, rfl, ⟨[], by simp⟩,
                ⟨[.migrateRun m.ID, .rollbackRun m.ID], rfl, by simp⟩⟩

theorem withDeferredRollback_state {α : Type} (r : Res α) :
    (withDeferredRollback r).state = rollbackTx r.state := by
  cases r <;> rfl

theorem rollbackTx_trace (s : St) : (rollbackTx s).trace = s.trace := by
  rw [rollbackTx]
  split <;> rfl

theorem rollbackTx_committed (s : St) : (rollbackTx s).committed = s.committed := by
  rw [rollbackTx]
  split <;> rfl

theorem rollbackTx_txOpen (s : St) : (rollbackTx s).txOpen = false ∨ rollbackTx s = s := by
  rw [rollbackTx]
  split
  · exact Or.inl rfl
  · exact Or.inr rfl

theorem migrateLoop_frame (mid : String) (ms : List Migration) (s : St) :
    (migrateLoop mid ms s).state.tableExists = s.tableExists
    ∧ (migrateLoop mid ms s).state.txOpen = s.txOpen
    ∧ (migrateLoop mid ms s).state.txDeletes = s.txDeletes
    ∧ (migrateLoop mid ms s).state.begins = s.begins
    ∧ (∃ c, (migrateLoop mid ms s).state.committed = s.committed ++ c)
    ∧ (∃ t, (migrateLoop mid ms s).state.trace = s.trace ++ t ∧ Event.initSchemaRun ∉ t) := by
  induction ms generalizing s with
  | nil =>
      rw [show migrateLoop mid [] s = .ok () s from rfl]
      exact ⟨rfl, rfl, rfl, rfl, ⟨[], by simp⟩, ⟨[], by simp, by simp⟩⟩
  | cons m rest ih =>
      have hf := runMigration_frame m s
      rcases hrm : runMigration m s with ⟨a, s₁⟩ | ⟨e, s₁⟩ | s₁ <;> rw [hrm] at hf <;>
        simp only [Res.state_ok, Res.state_err, Res.state_panicked] at hf
      · obtain ⟨h₁, h₂, h₃, h₄, ⟨c₁, hc₁⟩, ⟨t₁, ht₁, hn₁⟩⟩ := hf
        by_cases hb : mid ≠ "" ∧ m.ID = mid
        · rw [show migrateLoop mid (m :: rest) s = .ok () s₁ by
            rw [migrateLoop, hrm]
            simp [hb]]
          exact ⟨h₁, h₂, h₃, h₄, ⟨c₁, hc₁⟩, ⟨t₁, ht₁, hn₁⟩⟩
        · rw [show migrateLoop mid (m :: rest) s = migrateLoop mid rest s₁ by
            rw [migrateLoop, hrm]
            simp [hb]]
          obtain ⟨g₁, g₂, g₃, g₄, ⟨c₂, hc₂⟩, ⟨t₂, ht₂, hn₂⟩⟩ := ih s₁
          refine ⟨g₁.trans h₁, g₂.trans h₂, g₃.trans h₃, g₄.trans h₄,
            ⟨c₁ ++ c₂, ?_⟩, ⟨t₁ ++ t₂, ?_, ?_⟩⟩
          · rw [hc₂, hc₁, List.append_assoc]
          · rw [ht₂, ht₁, List.append_assoc]
          · simp [hn₁, hn₂]
      · rw [show migrateLoop mid (m :: rest) s = .err e s₁ by
          rw [migrateLoop, hrm]
          rfl]
        exact hf
      · rw [show migrateLoop mid (m :: rest) s = .panicked s₁ by
          rw [migrateLoop, hrm]
          rfl]
        exact hf

theorem canInitializeSchema_spec (s : St) (ht : s.tableExists = true) :
    canInitializeSchema s =
      .ok ((!(s.committed.contains initSchemaMigrationID)) && (s.committed.length == 0)) s := by
  rw [canInitializeSchema]
  by_cases hc : initSchemaMigrationID ∈ s.committed
  · simp [migrationRan, ht, hc]
  · simp [migrationRan, ht, hc]

theorem canInitializeSchema_false_of_nonempty (s : St) (ht : s.tableExists = true)
    (hne : s.committed ≠ []) : canInitializeSchema s = .ok false s := by
  rw [canInitializeSchema_spec s ht]
  have hl : (s.committed.length == 0) = false := by
    simp [List.length_eq_zero, hne]
  rw [hl, Bool.and_false]

theorem createMigrationTableIfNotExists_spec (s : St) :
    createMigrationTableIfNotExists s = .ok () (afterCreate s) := by
  rw [createMigrationTableIfNotExists, afterCreate]
  by_cases ht : s.tableExists = true
  · cases s with
    | mk a b c d e f =>
        simp at ht
        simp [ht]
  · simp [ht]

theorem migrateTail_no_init (g : Engine) (mid : String) (s : St) :
    ∃ t, (migrateTail g mid s).state.trace = s.trace ++ t ∧ Event.initSchemaRun ∉ t := by
  obtain ⟨_, _, _, _, _, ⟨t, htr, hn⟩⟩ := migrateLoop_frame mid g.migrations s
  rw [migrateTail]
  rcases hml : migrateLoop mid g.migrations s with ⟨a, s₁⟩ | ⟨e, s₁⟩ | s₁ <;>
    rw [hml] at htr <;> simp only [Res.state_ok, Res.state_err, Res.state_panicked] at htr
  · exact ⟨t, by simpa [commitTx] using htr, hn⟩
  · exact ⟨t, htr, hn⟩
  · exact ⟨t, htr, hn⟩

theorem migrateBody_eq (g : Engine) (mid : String) (s : St) :
    migrateBody g mid s =
      match g.initSchema with
      | some _ =>
          (canInitializeSchema (afterCreate s)).bind fun can s₂ =>
            if can then
              (runInitSchema g s₂).bind fun _ s₃ => .ok () (commitTx s₃)
            else migrateTail g mid s₂
      | none => migrateTail g mid (afterCreate s) := by
  rw [migrateBody, createMigrationTableIfNotExists_spec]
  rfl

theorem migrateBody_no_init (g : Engine) (mid : String) (s : St) (hne : s.committed ≠ []) :
    ∃ t, (migrateBody g mid s).state.trace = s.trace ++ t ∧ Event.initSchemaRun ∉ t := by
  rw [migrateBody_eq]
  cases hi : g.initSchema with
  | none => exact migrateTail_no_init g mid (afterCreate s)
  | some b =>
      rw [canInitializeSchema_false_of_nonempty (afterCreate s) rfl hne]
      exact migrateTail_no_init g mid (afterCreate s)

theorem migrate_count_init (g : Engine) (mid : String) (s : St) (hne : s.committed ≠ []) :
    (migrate g mid s).state.trace.count Event.initSchemaRun
      = s.trace.count Event.initSchemaRun := by
  rw [migrate]
  by_cases hm : hasMigrations g = true
  · simp only [hm, Bool.not_true, Bool.false_eq_true, if_false]
    cases hR : checkReservedID g with
    | some e => rfl
    | none =>
        cases hD : checkDuplicatedID g with
        | some e => rfl
        | none =>
            have hb : (beginTx s).committed ≠ [] := hne
            obtain ⟨t, htr, hn⟩ := migrateBody_no_init g mid (beginTx s) hb
            rw [withDeferredRollback_state, rollbackTx_trace, htr]
            simp [beginTx, List.count_append, List.count_eq_zero.mpr hn]
  · simp only [Bool.not_eq_true] at hm
    simp [hm]

/-- C9: `canInitializeSchema` computes exactly "the bootstrap record is
absent AND the total applied count is zero" (first conjunct, for any
state in which the history table exists), and once any record is in
the history — bootstrap record included — a subsequent `Migrate` never
invokes a registered initializer: the count of init-schema executions
in the trace does not grow (second conjunct). -/
theorem c9_bootstrap_exclusive (s : St) (g : Engine) :
    (s.tableExists = true →
      canInitializeSchema s =
        .ok ((!(s.committed.contains initSchemaMigrationID)) && (s.committed.length == 0)) s)
    ∧ (s.committed ≠ [] →
        (Migrate g s).state.trace.count Event.initSchemaRun
          = s.trace.count Event.initSchemaRun) := by
  refine ⟨fun ht => canInitializeSchema_spec s ht, fun hne => ?_⟩
  rw [Migrate]
  by_cases hm : hasMigrations g = true
  · simp only [hm, Bool.not_true, Bool.false_eq_true, if_false]
    exact migrate_count_init g _ s hne
  · simp only [Bool.not_eq_true] at hm
    simp [hm]

/-- Witness for C9: on a table holding only the row "X", the
initializer of `gInitTwo` is not invoked by `Migrate`. -/
theorem c9_witness :
    canInitializeSchema { stTable with committed := ["X"] }
      = .ok false { stTable with committed := ["X"] }
    ∧ (Migrate gInitTwo { stTable with committed := ["X"] }).state.trace.count
        Event.initSchemaRun = 0 := by
  have h := c9_bootstrap_exclusive { stTable with committed := ["X"] } gInitTwo
  exact ⟨(h.1 rfl).trans (by rfl), (h.2 (by simp)).trans (by rfl)⟩

theorem checkReservedIDAux_none (ms : List Migration)
    (h : ∀ m ∈ ms, m.ID ≠ initSchemaMigrationID) : checkReservedIDAux ms = none := by
  induction ms with
  | nil => rfl
  | cons m rest ih =>
      rw [checkReservedIDAux, if_neg (h m (by simp))]
      exact ih fun m2 hm2 => h m2 (by simp [hm2])

theorem checkReservedIDAux_some (ms : List Migration)
    (h : ∃ m ∈ ms, m.ID = initSchemaMigrationID) :
    checkReservedIDAux ms = some (.reservedIDError initSchemaMigrationID) := by
  induction ms with
  | nil => simp at h
  | cons m rest ih =>
      rw [checkReservedIDAux]
      by_cases hm : m.ID = initSchemaMigrationID
      · rw [if_pos hm, hm]
      · rw [if_neg hm]
        apply ih
        rcases h with ⟨m2, hm2, he⟩
        rcases List.mem_cons.mp hm2 with h1 | h1
        · exact absurd (h1 ▸ he) hm
        · exact ⟨m2, h1, he⟩

theorem checkDuplicatedIDAux_none (ms : List Migration) (seen : List String)
    (h1 : (ms.map Migration.ID).Nodup) (h2 : ∀ m ∈ ms, m.ID ∉ seen) :
    checkDuplicatedIDAux seen ms = none := by
  induction ms generalizing seen with
  | nil => rfl
  | cons m rest ih =>
      rw [checkDuplicatedIDAux]
      have hc : seen.contains m.ID = false := by simp [h2 m (by simp)]
      rw [hc]
      simp only [Bool.false_eq_true, if_false]
      simp only [List.map_cons, List.nodup_cons] at h1
      refine ih (m.ID :: seen) h1.2 fun m2 hm2 => ?_
      intro hmem
      rcases List.mem_cons.mp hmem with h3 | h3
      · exact h1.1 (h3 ▸ List.mem_map_of_mem Migration.ID hm2)
      · exact h2 m2 (by simp [hm2]) h3

theorem checkDuplicatedIDAux_some (ms : List Migration) (seen : List String) (e : Err)
    (h : checkDuplicatedIDAux seen ms = some e) :
    ∃ d, e = .duplicatedIDError d ∧ d ∈ ms.map Migration.ID
      ∧ (d ∈ seen ∨ 2 ≤ (ms.map Migration.ID).count d) := by
  induction ms generalizing seen with
  | nil => simp [checkDuplicatedIDAux] at h
  | cons m rest ih =>
      rw [checkDuplicatedIDAux] at h
      by_cases hc : m.ID ∈ seen
      · rw [show seen.contains m.ID = true by simp [hc]] at h
        simp only [if_true] at h
        refine ⟨m.ID, ?_, by simp, Or.inl hc⟩
        cases h
        rfl
      · rw [show seen.contains m.ID = false by simp [hc]] at h
        simp only [Bool.false_eq_true, if_false] at h
        obtain ⟨d, hd1, hd2, hd3⟩ := ih (m.ID :: seen) h
        refine ⟨d, hd1, by simp [hd2], ?_⟩
        rcases hd3 with hd | hd
        · rcases List.mem_cons.mp hd with h1 | h1
          · right
            rw [h1] at hd2 ⊢
            have hpos : 0 < (rest.map Migration.ID).count m.ID :=
              List.count_pos_iff.mpr hd2
            simp only [List.map_cons, List.count_cons_self]
            omega
          · exact Or.inl h1
        · right
          simp only [List.map_cons, List.count_cons]
          by_cases hdm : d = m.ID
          · subst hdm
            simp only [beq_self_eq_true, if_true]
            omega
          · simp only [beq_iff_eq, hdm, if_false]
            omega

theorem checkDuplicatedIDAux_none_nodup (ms : List Migration) (seen : List String)
    (h : checkDuplicatedIDAux seen ms = none) :
    (ms.map Migration.ID).Nodup ∧ ∀ m ∈ ms, m.ID ∉ seen := by
  induction ms generalizing seen with
  | nil => simp
  | cons m rest ih =>
      rw [checkDuplicatedIDAux] at h
      by_cases hc : m.ID ∈ seen
      · rw [show seen.contains m.ID = true by simp [hc]] at h
        simp at h
      · rw [show seen.contains m.ID = false by simp [hc]] at h
        simp only [Bool.false_eq_true, if_false] at h
        obtain ⟨h1, h2⟩ := ih (m.ID :: seen) h
        refine ⟨?_, ?_⟩
        · simp only [List.map_cons, List.nodup_cons]
          refine ⟨fun hmem => ?_, h1⟩
          obtain ⟨m2, hm2, hid2⟩ := List.mem_map.mp hmem
          exact h2 m2 hm2 (by simp [hid2])
        · intro m2 hm2
          rcases List.mem_cons.mp hm2 with h3 | h3
          · subst h3
            exact hc
          · exact fun hs => h2 m2 h3 (by simp [hs])

theorem hasMigrations_of_ne (g : Engine) (hne : g.migrations ≠ []) :
    hasMigrations g = true := by
  simp [hasMigrations, List.isEmpty_iff]
  tauto

/-- C5 (amended): catalog validation surfaces before any transaction
and without any database write — the returned state is exactly the
input state (in particular `begins`, `committed` and `tableExists` are
untouched).  A catalog using the reserved bootstrap identifier makes
`migrate` fail with `ReservedIDError`; a duplicated identifier (in a
catalog free of reserved IDs, which are checked first) makes it fail
with `DuplicatedIDError` carrying an identifier that occurs at least
twice; a target absent from the catalog makes `MigrateTo` — and, for a
nonempty catalog, `RollbackTo` — fail with
`ErrMigrationIDDoesNotExist`. -/
theorem c5_validation_before_tx (g : Engine) (mid : String) (s : St) :
    ((∃ m ∈ g.migrations, m.ID = initSchemaMigrationID) →
      migrate g mid s = .err (.reservedIDError initSchemaMigrationID) s)
    ∧ ((∀ m ∈ g.migrations, m.ID ≠ initSchemaMigrationID) →
        ¬ (g.migrations.map Migration.ID).Nodup →
        ∃ d, 2 ≤ (g.migrations.map Migration.ID).count d
          ∧ migrate g mid s = .err (.duplicatedIDError d) s)
    ∧ ((∀ m ∈ g.migrations, m.ID ≠ mid) →
        MigrateTo g mid s = .err .errMigrationIDDoesNotExist s
        ∧ (g.migrations ≠ [] → RollbackTo g mid s = .err .errMigrationIDDoesNotExist s)) := by
  refine ⟨fun hres => ?_, fun hnores hnodup => ?_, fun habs => ?_⟩
  · obtain ⟨m0, hm0, hid⟩ := hres
    have hne : g.migrations ≠ [] := by
      intro h
      rw [h] at hm0
      simp at hm0
    rw [migrate, hasMigrations_of_ne g hne]
    simp only [Bool.not_true, Bool.false_eq_true, if_false]
    rw [show checkReservedID g = some (.reservedIDError initSchemaMigrationID) from
      checkReservedIDAux_some g.migrations ⟨m0, hm0, hid⟩]
  · have hne : g.migrations ≠ [] := by
      intro h
      exact hnodup (by simp [h])
    have hR : checkReservedID g = none := checkReservedIDAux_none g.migrations hnores
    cases hD : checkDuplicatedID g with
    | none =>
        exact absurd (checkDuplicatedIDAux_none_nodup g.migrations [] hD).1 hnodup
    | some e =>
        obtain ⟨d, hd1, hd2, hd3⟩ := checkDuplicatedIDAux_some g.migrations [] e hD
        have hcount : 2 ≤ (g.migrations.map Migration.ID).count d := by
          rcases hd3 with h | h
          · simp at h
          · exact h
        refine ⟨d, hcount, ?_⟩
        rw [migrate, hasMigrations_of_ne g hne]
        simp only [Bool.not_true, Bool.false_eq_true, if_false]
        rw [hR, hD, hd1]
  · have hany : (g.migrations.any fun m => m.ID = mid) = false := by
      simp only [List.any_eq_false, decide_eq_true_eq]
      exact habs
    have hcid : checkIDExist g mid = some .errMigrationIDDoesNotExist := by
      rw [checkIDExist, hany]
      rfl
    refine ⟨?_, fun hne2 => ?_⟩
    · rw [MigrateTo, hcid]
    · have hie : g.migrations.isEmpty = false := by
        simp [List.isEmpty_iff, hne2]
      rw [RollbackTo, hie]
      simp only [Bool.false_eq_true, if_false]
      rw [hcid]

/-- Catalog using the reserved bootstrap identifier. -/
def gReserved : Engine := { migrations := [mkStep "SCHEMA_INIT"], initSchema := none }

/-- Catalog with a duplicated identifier. -/
def gDupAA : Engine := { migrations := [mkStep "A", mkStep "A"], initSchema := none }

/-- Witness for C5: the three validation failures at concrete inputs,
each leaving the fresh state untouched. -/
theorem c5_witness :
    migrate gReserved "" stFresh = .err (.reservedIDError initSchemaMigrationID) stFresh
    ∧ (∃ d, 2 ≤ ((gDupAA.migrations.map Migration.ID).count d)
        ∧ migrate gDupAA "" stFresh = .err (.duplicatedIDError d) stFresh)
    ∧ MigrateTo gNoSteps "Q" stFresh = .err .errMigrationIDDoesNotExist stFresh := by
  refine ⟨?_, ?_, ?_⟩
  · exact (c5_validation_before_tx gReserved "" stFresh).1
      ⟨mkStep "SCHEMA_INIT", by simp [gReserved], rfl⟩
  · exact (c5_validation_before_tx gDupAA "" stFresh).2.1 (by decide) (by decide)
  · exact ((c5_validation_before_tx gNoSteps "Q" stFresh).2.2 (by simp [gNoSteps])).1

theorem migrationRan_mem (m : Migration) (s : St) (ht : s.tableExists = true)
    (hc : m.ID ∈ s.committed) : migrationRan m s = .ok true s := by
  simp [migrationRan, ht, hc]

theorem migrationRan_not_mem (m : Migration) (s : St) (ht : s.tableExists = true)
    (hc : m.ID ∉ s.committed) : migrationRan m s = .ok false s := by
  simp [migrationRan, ht, hc]

theorem migrationRan_noTable (m : Migration) (s : St) (ht : s.tableExists = false) :
    migrationRan m s = .err .noSuchTable s := by
  simp [migrationRan, ht]

theorem getLastRunMigrationAux_none (ms : List Migration) (s : St)
    (ht : s.tableExists = true) (h : ∀ m ∈ ms, m.ID ∉ s.committed) :
    getLastRunMigrationAux ms s = .err .errNoRunMigration s := by
  induction ms with
  | nil => rfl
  | cons m rest ih =>
      rw [getLastRunMigrationAux, migrationRan_not_mem m s ht (h m (by simp))]
      simp only [Res.bind_ok, Bool.false_eq_true, if_false]
      exact ih fun m2 hm2 => h m2 (by simp [hm2])

theorem getLastRunMigrationAux_ok (ms : List Migration) (s : St) (m : Migration) (s₁ : St)
    (h : getLastRunMigrationAux ms s = .ok m s₁) :
    s₁ = s ∧ m.ID ∈ s.committed
      ∧ ∃ as bs, ms = as ++ m :: bs ∧ ∀ x ∈ as, x.ID ∉ s.committed := by
  induction ms with
  | nil => simp [getLastRunMigrationAux] at h
  | cons m0 rest ih =>
      rw [getLastRunMigrationAux] at h
      by_cases ht : s.tableExists = true
      · by_cases hc : m0.ID ∈ s.committed
        · rw [migrationRan_mem m0 s ht hc] at h
          simp only [Res.bind_ok, if_true] at h
          simp only [Res.ok.injEq] at h
          obtain ⟨h1, h2⟩ := h
          subst h1
          subst h2
          exact ⟨rfl, hc, [], rest, rfl, by simp⟩
        · rw [migrationRan_not_mem m0 s ht hc] at h
          simp only [Res.bind_ok, Bool.false_eq_true, if_false] at h
          obtain ⟨he, hm, as, bs, hsplit, hall⟩ := ih h
          refine ⟨he, hm, m0 :: as, bs, by simp [hsplit], ?_⟩
          intro x hx
          rcases List.mem_cons.mp hx with h1 | h1
          · subst h1
            exact hc
          · exact hall x h1
      · have ht2 : s.tableExists = false := by simpa using ht
        rw [migrationRan_noTable m0 s ht2] at h
        simp at h

theorem rollbackMigration_ok_inv (m : Migration) (s : St) (s₂ : St)
    (h : rollbackMigration m s = .ok () s₂) :
    m.Rollback = some true ∧ s.tableExists = true
      ∧ s₂ = { s with
          trace := s.trace ++ [.rollbackRun m.ID, .deleteRan m.ID],
          txDeletes := s.txDeletes ++ [m.ID] } := by
  cases hr : m.Rollback with
  | none =>
      rw [rollbackMigration, hr] at h
      simp at h
  | some rOk =>
      rw [rollbackMigration, hr] at h
      cases rOk with
      | false => simp [addEvent] at h
      | true =>
          by_cases ht : s.tableExists = true
          · simp only [addEvent, ht, if_true, Res.ok.injEq, true_and] at h
            refine ⟨rfl, ht, ?_⟩
            rw [← h]
            simp [ht]
          · have ht2 : s.tableExists = false := by simpa using ht
            simp [addEvent, ht2] at h

/-- C8: `RollbackLast` fails with `ErrNoMigrationDefined` on an empty
catalog (even when an initializer is registered); with a nonempty
catalog and no applied step it fails with `ErrNoRunMigration`; and
whenever it succeeds, the catalog splits as `pre ++ m :: post` where
`m` is the last applied step (nothing after it is applied), and
exactly that one step is undone: one inverse action ran, one history
DELETE was issued, and only `m`'s row left the history. -/
theorem c8_rollbackLast (g : Engine) (s : St) :
    (g.migrations = [] → RollbackLast g s = .err .errNoMigrationDefined s)
    ∧ (g.migrations ≠ [] → s.tableExists = true →
        (∀ m ∈ g.migrations, m.ID ∉ s.committed) →
        RollbackLast g s =
          .err .errNoRunMigration
            { s with begins := s.begins + 1, txOpen := false, txDeletes := [] })
    ∧ (∀ s', RollbackLast g s = .ok () s' →
        ∃ pre m post, g.migrations = pre ++ m :: post
          ∧ m.ID ∈ s.committed
          ∧ (∀ x ∈ post, x.ID ∉ s.committed)
          ∧ s'.trace = s.trace ++ [.rollbackRun m.ID, .deleteRan m.ID]
          ∧ s'.committed = applyDeletes s.committed [m.ID]
          ∧ s'.txOpen = false ∧ s'.txDeletes = []) := by
  refine ⟨fun h => ?_, fun hne ht hnone => ?_, fun s' hok => ?_⟩
  · rw [RollbackLast, h]
    rfl
  · have hie : g.migrations.isEmpty = false := by simp [List.isEmpty_iff, hne]
    rw [RollbackLast, hie]
    simp only [Bool.false_eq_true, if_false]
    have hb : getLastRunMigration g (beginTx s) = .err .errNoRunMigration (beginTx s) := by
      rw [getLastRunMigration]
      exact getLastRunMigrationAux_none g.migrations.reverse (beginTx s) ht
        fun m hm => hnone m (List.mem_reverse.mp hm)
    rw [hb]
    rfl
  · rw [RollbackLast] at hok
    by_cases hie : g.migrations.isEmpty = true
    · rw [if_pos hie] at hok
      simp at hok
    · rw [if_neg hie] at hok
      rcases hg : getLastRunMigration g (beginTx s) with ⟨m, s₁⟩ | ⟨e, s₁⟩ | s₁
      · rw [hg] at hok
        simp only [Res.bind_ok] at hok
        rcases hr : rollbackMigration m s₁ with ⟨u, s₂⟩ | ⟨e₂, s₂⟩ | s₂
        · rw [hr] at hok
          simp only [Res.bind_ok, withDeferredRollback, Res.ok.injEq, true_and] at hok
          rw [getLastRunMigration] at hg
          obtain ⟨hs₁, hmem, as, bs, hsplit, hall⟩ := getLastRunMigrationAux_ok _ _ _ _ hg
          subst hs₁
          obtain ⟨hrb, htE, hs₂⟩ := rollbackMigration_ok_inv m (beginTx s) s₂ hr
          subst hs₂
          refine ⟨bs.reverse, m, as.reverse, ?_, hmem, ?_, ?_, ?_, ?_, ?_⟩
          · have h2 : g.migrations = (as ++ m :: bs).reverse := by
              rw [← hsplit, List.reverse_reverse]
            rw [h2]
            simp
          · intro x hx
            exact hall x (List.mem_reverse.mp hx)
          · rw [← hok]
            simp [rollbackTx, commitTx, beginTx]
          · rw [← hok]
            simp [rollbackTx, commitTx, beginTx]
          · rw [← hok]
            simp [rollbackTx, commitTx]
          · rw [← hok]
            simp [rollbackTx, commitTx]
        · rw [hr] at hok
          simp [withDeferredRollback] at hok
        · rw [hr] at hok
          simp [withDeferredRollback] at hok
      · rw [hg] at hok
        simp [withDeferredRollback] at hok
      · rw [hg] at hok
        simp [withDeferredRollback] at hok

/-- Witness for C8: the three behaviours at concrete inputs — empty
catalog, nothing applied, and exactly the last applied step "A"
undone. -/
theorem c8_witness :
    RollbackLast gNoSteps stFresh = .err .errNoMigrationDefined stFresh
    ∧ RollbackLast gPartialFail stTable =
        .err .errNoRunMigration
          { tableExists := true, committed := [], txOpen := false, txDeletes := [],
            begins := 1, trace := [] }
    ∧ (∃ pre m post, gPartialFail.migrations = pre ++ m :: post
        ∧ m.ID ∈ ({ stTable with committed := ["A"] } : St).committed
        ∧ (∀ x ∈ post, x.ID ∉ ({ stTable with committed := ["A"] } : St).committed)
        ∧ ({ tableExists := true, committed := [], txOpen := false, txDeletes := [],
             begins := 1,
             trace := [Event.rollbackRun "A", Event.deleteRan "A"] } : St).trace
            = ({ stTable with committed := ["A"] } : St).trace
              ++ [.rollbackRun m.ID, .deleteRan m.ID]
        ∧ ({ tableExists := true, committed := [], txOpen := false, txDeletes := [],
             begins := 1,
             trace := [Event.rollbackRun "A", Event.deleteRan "A"] } : St).committed
            = applyDeletes ({ stTable with committed := ["A"] } : St).committed [m.ID]
        ∧ ({ tableExists := true, committed := [], txOpen := false, txDeletes := [],
             begins := 1,
             trace := [Event.rollbackRun "A", Event.deleteRan "A"] } : St).txOpen = false
        ∧ ({ tableExists := true, committed := [], txOpen := false, txDeletes := [],
             begins := 1,
             trace := [Event.rollbackRun "A", Event.deleteRan "A"] } : St).txDeletes = []) := by
  refine ⟨?_, ?_, ?_⟩
  · exact (c8_rollbackLast gNoSteps stFresh).1 rfl
  · exact ((c8_rollbackLast gPartialFail stTable).2.1 (by simp [gPartialFail])
      rfl (by decide)).trans rfl
  · exact (c8_rollbackLast gPartialFail { stTable with committed := ["A"] }).2.2
      { tableExists := true, committed := [], txOpen := false, txDeletes := [],
        begins := 1, trace := [Event.rollbackRun "A", Event.deleteRan "A"] } rfl

theorem undoEvents_append (xs ys : List Migration) :
    undoEvents (xs ++ ys) = undoEvents xs ++ undoEvents ys := by
  induction xs with
  | nil => simp [undoEvents]
  | cons a rest ih => simp [undoEvents, ih]

theorem takeWhile_append_sat {α : Type} (p : α → Bool) (xs : List α) (y : α) (ys : List α)
    (hx : ∀ x ∈ xs, p x = true) (hy : p y = false) :
    (xs ++ y :: ys).takeWhile p = xs := by
  induction xs with
  | nil => simp [List.takeWhile_cons, hy]
  | cons a rest ih =>
      simp only [List.cons_append, List.takeWhile_cons, hx a (by simp), if_true]
      rw [ih fun x hx2 => hx x (by simp [hx2])]

theorem checkIDExist_none (g : Engine) (mid : String) (h : checkIDExist g mid = none) :
    ∃ m ∈ g.migrations, m.ID = mid := by
  rw [checkIDExist] at h
  by_cases ha : (g.migrations.any fun m => m.ID = mid) = true
  · obtain ⟨m, hm, he⟩ := List.any_eq_true.mp ha
    exact ⟨m, hm, by simpa using he⟩
  · rw [if_neg ha] at h
    simp at h

theorem rollbackMigration_ok (m : Migration) (s : St) (hr : m.Rollback = some true)
    (ht : s.tableExists = true) :
    rollbackMigration m s =
      .ok () { s with
        trace := s.trace ++ [.rollbackRun m.ID, .deleteRan m.ID],
        txDeletes := s.txDeletes ++ [m.ID] } := by
  simp [rollbackMigration, hr, ht, addEvent]

theorem rollbackToLoop_ok_spec (tid : String) (ms : List Migration) (s : St) (s' : St)
    (h : rollbackToLoop tid ms s = .ok () s') :
    s' = { s with
      trace := s.trace ++ undoEvents ((ms.takeWhile fun m => !(m.ID == tid)).filter
        (fun m => s.committed.contains m.ID)),
      txDeletes := s.txDeletes ++ ((ms.takeWhile fun m => !(m.ID == tid)).filter
        (fun m => s.committed.contains m.ID)).map Migration.ID } := by
  induction ms generalizing s with
  | nil =>
      rw [show rollbackToLoop tid [] s = .ok () s from rfl] at h
      simp only [Res.ok.injEq, true_and] at h
      subst h
      simp [undoEvents]
  | cons m rest ih =>
      rw [rollbackToLoop] at h
      by_cases hm : m.ID = tid
      · rw [if_pos hm] at h
        simp only [Res.ok.injEq, true_and] at h
        subst h
        simp [List.takeWhile_cons, hm, undoEvents]
      · rw [if_neg hm] at h
        by_cases ht : s.tableExists = true
        · by_cases hc : m.ID ∈ s.committed
          · rw [migrationRan_mem m s ht hc] at h
            simp only [Res.bind_ok, if_true] at h
            rcases hro : rollbackMigration m s with ⟨u, s₂⟩ | ⟨e₂, s₂⟩ | s₂
            · rw [hro] at h
              simp only [Res.bind_ok] at h
              obtain ⟨hrb, -, hs₂⟩ := rollbackMigration_ok_inv m s s₂ hro
              subst hs₂
              rw [ih _ h]
              simp [List.takeWhile_cons, hm, hc, undoEvents, List.append_assoc]
            · rw [hro] at h
              simp at h
            · rw [hro] at h
              simp at h
          · rw [migrationRan_not_mem m s ht hc] at h
            simp only [Res.bind_ok, Bool.false_eq_true, if_false] at h
            rw [ih _ h]
            simp [List.takeWhile_cons, hm, hc]
        · have ht2 : s.tableExists = false := by simpa using ht
          rw [migrationRan_noTable m s ht2] at h
          simp at h

/-- C7: when `RollbackTo id` succeeds on a duplicate-free catalog
containing the target, the catalog splits as `pre ++ tgt :: post` with
`tgt.ID = id`, and exactly the applied steps of `post` — those
declared strictly after the target — are undone, in reverse
declaration order (each contributing its inverse action then its
history DELETE to the trace); neither the target nor any step declared
before it is ever undone, and the target's own history row survives. -/
theorem c7_rollbackTo (g : Engine) (id : String) (s : St) (s' : St)
    (hn : (g.migrations.map Migration.ID).Nodup)
    (hok : RollbackTo g id s = .ok () s') :
    ∃ pre tgt post, g.migrations = pre ++ tgt :: post ∧ tgt.ID = id
      ∧ s'.trace = s.trace ++ undoEvents
          (post.reverse.filter (fun m => s.committed.contains m.ID))
      ∧ s'.committed = applyDeletes s.committed
          ((post.reverse.filter (fun m => s.committed.contains m.ID)).map Migration.ID)
      ∧ id ∉ ((post.reverse.filter (fun m => s.committed.contains m.ID)).map Migration.ID)
      ∧ (∀ x ∈ pre,
          x.ID ∉ ((post.reverse.filter (fun m => s.committed.contains m.ID)).map Migration.ID))
      ∧ s'.txOpen = false ∧ s'.txDeletes = [] := by
  rw [RollbackTo] at hok
  by_cases hie : g.migrations.isEmpty = true
  · rw [if_pos hie] at hok
    simp at hok
  · rw [if_neg hie] at hok
    rcases hcid : checkIDExist g id with _ | e
    · rw [hcid] at hok
      obtain ⟨m0, hm0, hid0⟩ := checkIDExist_none g id hcid
      obtain ⟨pre, post, hsplit⟩ := List.append_of_mem hm0
      rw [hsplit, List.map_append, List.map_cons, List.nodup_append] at hn
      obtain ⟨hnpre, hncons, hdisj⟩ := hn
      rw [List.nodup_cons] at hncons
      obtain ⟨hm0post, hnpost⟩ := hncons
      have hsub : ∀ z, z ∈ ((post.reverse.filter
          (fun m => s.committed.contains m.ID)).map Migration.ID) →
          z ∈ post.map Migration.ID := by
        intro z hz
        obtain ⟨y, hy, hzy⟩ := List.mem_map.mp hz
        have hy2 : y ∈ post.reverse := (List.mem_filter.mp hy).1
        exact hzy ▸ List.mem_map_of_mem Migration.ID (List.mem_reverse.mp hy2)
      rcases hl : rollbackToLoop id g.migrations.reverse (beginTx s) with ⟨u, s₁⟩ | ⟨e, s₁⟩ | s₁
      · rw [hl] at hok
        simp only [Res.bind_ok, withDeferredRollback, Res.ok.injEq, true_and] at hok
        have hspec := rollbackToLoop_ok_spec id g.migrations.reverse (beginTx s) s₁ hl
        have hrev : g.migrations.reverse = post.reverse ++ m0 :: pre.reverse := by
          rw [hsplit]
          simp
        have htw : (g.migrations.reverse.takeWhile fun m => !(m.ID == id))
            = post.reverse := by
          rw [hrev]
          apply takeWhile_append_sat
          · intro x hx
            have hxid : x.ID ≠ id := by
              intro he
              exact hm0post (hid0 ▸ he ▸
                List.mem_map_of_mem Migration.ID (List.mem_reverse.mp hx))
            simp [hxid]
          · simp [hid0]
        rw [htw] at hspec
        subst hspec
        refine ⟨pre, m0, post, hsplit, hid0, ?_, ?_, ?_, ?_, ?_, ?_⟩
        · rw [← hok]
          simp [rollbackTx, commitTx, beginTx]
        · rw [← hok]
          simp [rollbackTx, commitTx, beginTx]
        · intro hmem
          exact hm0post (hid0 ▸ hsub id hmem)
        · intro x hx hmem
          exact hdisj (List.mem_map_of_mem Migration.ID hx) (by simp [hsub _ hmem])
        · rw [← hok]
          simp [rollbackTx, commitTx]
        · rw [← hok]
          simp [rollbackTx, commitTx]
      · rw [hl] at hok
        simp [withDeferredRollback] at hok
      · rw [hl] at hok
        simp [withDeferredRollback] at hok
    · rw [hcid] at hok
      simp at hok

/-- Witness for C7: with catalog [A, B, C] fully applied,
`RollbackTo "A"` undoes C then B and leaves A's row. -/
theorem c7_witness :
    ∃ pre tgt post, gThree.migrations = pre ++ tgt :: post ∧ tgt.ID = "A"
      ∧ ({ tableExists := true, committed := ["A"], txOpen := false, txDeletes := [],
           begins := 1,
           trace := [Event.rollbackRun "C", Event.deleteRan "C",
                     Event.rollbackRun "B", Event.deleteRan "B"] } : St).trace
          = ({ stTable with committed := ["A", "B", "C"] } : St).trace ++ undoEvents
              (post.reverse.filter
                (fun m => ({ stTable with committed := ["A", "B", "C"] } : St).committed.contains m.ID))
      ∧ ({ tableExists := true, committed := ["A"], txOpen := false, txDeletes := [],
           begins := 1,
           trace := [Event.rollbackRun "C", Event.deleteRan "C",
                     Event.rollbackRun "B", Event.deleteRan "B"] } : St).committed
          = applyDeletes ({ stTable with committed := ["A", "B", "C"] } : St).committed
              ((post.reverse.filter
                (fun m => ({ stTable with committed := ["A", "B", "C"] } : St).committed.contains m.ID)).map
                Migration.ID)
      ∧ "A" ∉ ((post.reverse.filter
            (fun m => ({ stTable with committed := ["A", "B", "C"] } : St).committed.contains m.ID)).map
            Migration.ID)
      ∧ (∀ x ∈ pre,
          x.ID ∉ ((post.reverse.filter
            (fun m => ({ stTable with committed := ["A", "B", "C"] } : St).committed.contains m.ID)).map
            Migration.ID))
      ∧ ({ tableExists := true, committed := ["A"], txOpen := false, txDeletes := [],
           begins := 1,
           trace := [Event.rollbackRun "C", Event.deleteRan "C",
                     Event.rollbackRun "B", Event.deleteRan "B"] } : St).txOpen = false
      ∧ ({ tableExists := true, committed := ["A"], txOpen := false, txDeletes := [],
           begins := 1,
           trace := [Event.rollbackRun "C", Event.deleteRan "C",
                     Event.rollbackRun "B", Event.deleteRan "B"] } : St).txDeletes = [] := by
  exact c7_rollbackTo gThree "A" { stTable with committed := ["A", "B", "C"] }
    { tableExists := true, committed := ["A"], txOpen := false, txDeletes := [],
      begins := 1,
      trace := [Event.rollbackRun "C", Event.deleteRan "C",
                Event.rollbackRun "B", Event.deleteRan "B"] }
    (by decide) rfl

theorem takeUpTo_subset (mid : String) (ms : List Migration) :
    ∀ m ∈ takeUpTo mid ms, m ∈ ms := by
  induction ms with
  | nil => simp [takeUpTo]
  | cons m0 rest ih =>
      intro m hm
      rw [takeUpTo] at hm
      by_cases hb : mid ≠ "" ∧ m0.ID = mid
      · rw [if_pos hb] at hm
        simp at hm
        simp [hm]
      · rw [if_neg hb] at hm
        rcases List.mem_cons.mp hm with h1 | h1
        · simp [h1]
        · simp [ih m h1]

theorem takeUpTo_empty (ms : List Migration) : takeUpTo "" ms = ms := by
  induction ms with
  | nil => rfl
  | cons m0 rest ih =>
      rw [takeUpTo, if_neg (by simp)]
      rw [ih]

theorem contains_append_right_ne (c : List String) (x y : String) (h : y ≠ x) :
    (c ++ [x]).contains y = c.contains y := by
  simp [h]

theorem runMigrationList_eq_loop (ms : List Migration) (s : St) :
    runMigrationList ms s = migrateLoop "" ms s := by
  induction ms generalizing s with
  | nil => rfl
  | cons m rest ih =>
      rw [runMigrationList, migrateLoop]
      congr 1
      funext u s₁
      rw [if_neg (by simp)]
      exact ih s₁

theorem migrateLoop_ok_spec (mid : String) (ms : List Migration) (s : St) (s' : St)
    (hn : (ms.map Migration.ID).Nodup)
    (h : migrateLoop mid ms s = .ok () s') :
    s' = { s with
      committed := s.committed ++
        (((takeUpTo mid ms).filter (fun m => !(s.committed.contains m.ID))).map Migration.ID),
      trace := s.trace ++
        (((takeUpTo mid ms).filter (fun m => !(s.committed.contains m.ID))).map
          (fun m => Event.migrateRun m.ID)) }
    ∧ ∀ m ∈ takeUpTo mid ms, m.ID ≠ "" := by
  induction ms generalizing s with
  | nil =>
      rw [show migrateLoop mid [] s = .ok () s from rfl] at h
      simp only [Res.ok.injEq, true_and] at h
      subst h
      refine ⟨by simp [takeUpTo], by simp [takeUpTo]⟩
  | cons m rest ih =>
      rw [migrateLoop] at h
      by_cases h1 : m.ID = ""
      · rw [runMigration_missing m s h1] at h
        simp at h
      by_cases ht : s.tableExists = true
      case neg =>
        have ht2 : s.tableExists = false := by simpa using ht
        rw [runMigration_noTable m s h1 ht2] at h
        simp at h
      simp only [List.map_cons, List.nodup_cons] at hn
      obtain ⟨hmrest, hnrest⟩ := hn
      by_cases hc : m.ID ∈ s.committed
      · rw [runMigration_skip m s h1 ht hc] at h
        simp only [Res.bind_ok] at h
        by_cases hb : mid ≠ "" ∧ m.ID = mid
        · rw [if_pos hb] at h
          simp only [Res.ok.injEq, true_and] at h
          subst h
          rw [takeUpTo, if_pos hb]
          refine ⟨by simp [hc], by simp [h1]⟩
        · rw [if_neg hb] at h
          obtain ⟨hs', hids⟩ := ih s hnrest h
          rw [takeUpTo, if_neg hb]
          refine ⟨by rw [hs']; simp [hc], ?_⟩
          intro m2 hm2
          rcases List.mem_cons.mp hm2 with h2 | h2
          · subst h2
            exact h1
          · exact hids m2 h2
      · cases hm : m.Migrate with
        | none =>
            rw [runMigration_nilForward m s h1 ht hc hm] at h
            simp at h
        | some mOk =>
            cases mOk with
            | false =>
                cases hr : m.Rollback with
                | none =>
                    rw [runMigration_failNilInverse m s h1 ht hc hm hr] at h
                    simp at h
                | some r =>
                    rw [runMigration_failed m s r h1 ht hc hm hr] at h
                    simp at h
            | true =>
                rw [runMigration_apply m s h1 ht hc hm] at h
                simp only [Res.bind_ok] at h
                by_cases hb : mid ≠ "" ∧ m.ID = mid
                · rw [if_pos hb] at h
                  simp only [Res.ok.injEq, true_and] at h
                  subst h
                  rw [takeUpTo, if_pos hb]
                  refine ⟨by simp [hc], by simp [h1]⟩
                · rw [if_neg hb] at h
                  obtain ⟨hs', hids⟩ := ih _ hnrest h
                  rw [takeUpTo, if_neg hb]
                  have hfc : (takeUpTo mid rest).filter
                      (fun m2 => !((s.committed ++ [m.ID]).contains m2.ID))
                      = (takeUpTo mid rest).filter
                      (fun m2 => !(s.committed.contains m2.ID)) := by
                    apply List.filter_congr
                    intro m2 hm2
                    have hne : m2.ID ≠ m.ID := by
                      intro he
                      exact hmrest (he ▸ List.mem_map_of_mem Migration.ID
                        (takeUpTo_subset mid rest m2 hm2))
                    rw [contains_append_right_ne s.committed m.ID m2.ID hne]
                  refine ⟨?_, ?_⟩
                  · rw [hs']
                    simp only [hfc]
                    simp [hc, List.append_assoc]
                  · intro m2 hm2
                    rcases List.mem_cons.mp hm2 with h2 | h2
                    · subst h2
                      exact h1
                    · exact hids m2 h2

theorem migrateLoop_all_ran (mid : String) (ms : List Migration) (s : St)
    (ht : s.tableExists = true)
    (hall : ∀ m ∈ takeUpTo mid ms, m.ID ≠ "" ∧ m.ID ∈ s.committed) :
    migrateLoop mid ms s = .ok () s := by
  induction ms with
  | nil => rfl
  | cons m rest ih =>
      by_cases hb : mid ≠ "" ∧ m.ID = mid
      · have hm := hall m (by rw [takeUpTo, if_pos hb]; simp)
        rw [migrateLoop, runMigration_skip m s hm.1 ht hm.2]
        simp only [Res.bind_ok]
        rw [if_pos hb]
      · have hm := hall m (by rw [takeUpTo, if_neg hb]; simp)
        rw [migrateLoop, runMigration_skip m s hm.1 ht hm.2]
        simp only [Res.bind_ok]
        rw [if_neg hb]
        exact ih fun m2 hm2 => hall m2 (by rw [takeUpTo, if_neg hb]; simp [hm2])

theorem migrate_ok_checks (g : Engine) (mid : String) (s : St) (s₁ : St)
    (h : migrate g mid s = .ok () s₁) :
    hasMigrations g = true ∧ checkReservedID g = none ∧ checkDuplicatedID g = none := by
  rw [migrate] at h
  by_cases hm : hasMigrations g = true
  · simp only [hm, Bool.not_true, Bool.false_eq_true, if_false] at h
    rcases hR : checkReservedID g with _ | e
    · rcases hD : checkDuplicatedID g with _ | e
      · exact ⟨hm, rfl, rfl⟩
      · rw [hR, hD] at h
        simp at h
    · rw [hR] at h
      simp at h
  · have hm2 : hasMigrations g = false := by simpa using hm
    simp [hm2] at h

theorem canInitializeSchema_false_of_bootstrap (s : St) (ht : s.tableExists = true)
    (hmem : initSchemaMigrationID ∈ s.committed) :
    canInitializeSchema s = .ok false s := by
  simp [canInitializeSchema, migrationRan, ht, hmem]

theorem migrateTail_deferred_ok (g : Engine) (mid : String) (X : St) (s₁ : St)
    (hn : (g.migrations.map Migration.ID).Nodup)
    (hd : X.txDeletes = [])
    (h : withDeferredRollback (migrateTail g mid X) = .ok () s₁) :
    s₁ = { X with
      txOpen := false,
      committed := X.committed ++
        (((takeUpTo mid g.migrations).filter
          (fun m => !(X.committed.contains m.ID))).map Migration.ID),
      trace := X.trace ++
        (((takeUpTo mid g.migrations).filter
          (fun m => !(X.committed.contains m.ID))).map
          (fun m => Event.migrateRun m.ID)) }
    ∧ ∀ m ∈ takeUpTo mid g.migrations, m.ID ≠ "" := by
  rw [migrateTail] at h
  rcases hml : migrateLoop mid g.migrations X with ⟨u, sL⟩ | ⟨e, sL⟩ | sL
  · rw [hml] at h
    simp only [Res.bind_ok, withDeferredRollback, Res.ok.injEq, true_and] at h
    obtain ⟨hsL, hids⟩ := migrateLoop_ok_spec mid g.migrations X sL hn hml
    subst hsL
    refine ⟨?_, hids⟩
    rw [← h]
    simp [rollbackTx, commitTx, hd, applyDeletes_nil]
  · rw [hml] at h
    simp [withDeferredRollback] at h
  · rw [hml] at h
    simp [withDeferredRollback] at h

/-- C6 (amended): outside the bootstrap path — no initializer
registered, or some history row already committed — a successful
`migrate` executes exactly the not-yet-applied steps of the catalog
prefix up to and including the first step matching a non-empty target
(the whole catalog for an empty target), in declaration order, and
records exactly those steps: no forward action of a step declared
after the target ever runs.  (When the bootstrap path is taken the
engine instead applies every declared step — the counterexample.) -/
theorem c6_migrate_order (g : Engine) (mid : String) (s : St) (s' : St)
    (hinit : g.initSchema = none ∨ s.committed ≠ [])
    (hok : migrate g mid s = .ok () s') :
    s'.trace = s.trace ++
      (((takeUpTo mid g.migrations).filter (fun m => !(s.committed.contains m.ID))).map
        (fun m => Event.migrateRun m.ID))
    ∧ s'.committed = s.committed ++
      (((takeUpTo mid g.migrations).filter (fun m => !(s.committed.contains m.ID))).map
        Migration.ID) := by
  obtain ⟨hm, hR, hD⟩ := migrate_ok_checks g mid s s' hok
  have hn := (checkDuplicatedIDAux_none_nodup g.migrations [] hD).1
  rw [migrate] at hok
  simp only [hm, Bool.not_true, Bool.false_eq_true, if_false] at hok
  rw [hR, hD] at hok
  rw [migrateBody_eq] at hok
  cases hi : g.initSchema with
  | none =>
      rw [hi] at hok
      obtain ⟨hs2, hids⟩ :=
        migrateTail_deferred_ok g mid (afterCreate (beginTx s)) s' hn rfl hok
      rw [hs2]
      constructor <;> simp [beginTx]
  | some b =>
      rcases hinit with hnone | hne
      · rw [hi] at hnone
        simp at hnone
      · rw [hi] at hok
        have hcan : canInitializeSchema (afterCreate (beginTx s))
            = .ok false (afterCreate (beginTx s)) :=
          canInitializeSchema_false_of_nonempty _ rfl (by simpa [beginTx] using hne)
        rw [hcan] at hok
        simp only [Res.bind_ok, Bool.false_eq_true, if_false] at hok
        obtain ⟨hs2, hids⟩ :=
          migrateTail_deferred_ok g mid (afterCreate (beginTx s)) s' hn rfl hok
        rw [hs2]
        constructor <;> simp [beginTx]

/-- Witness for C6: on catalog [A, B, C] with A already applied and no
initializer, `migrate` to target "B" runs exactly B's forward action
(A is skipped, C is never reached). -/
theorem c6_witness :
    ({ tableExists := true, committed := ["A", "B"], txOpen := false, txDeletes := [],
       begins := 1, trace := [Event.migrateRun "B"] } : St).trace
      = ({ stTable with committed := ["A"] } : St).trace ++
        (((takeUpTo "B" gThree.migrations).filter
          (fun m => !(({ stTable with committed := ["A"] } : St).committed.contains m.ID))).map
          (fun m => Event.migrateRun m.ID))
    ∧ ({ tableExists := true, committed := ["A", "B"], txOpen := false, txDeletes := [],
         begins := 1, trace := [Event.migrateRun "B"] } : St).committed
      = ({ stTable with committed := ["A"] } : St).committed ++
        (((takeUpTo "B" gThree.migrations).filter
          (fun m => !(({ stTable with committed := ["A"] } : St).committed.contains m.ID))).map
          Migration.ID) := by
  exact c6_migrate_order gThree "B" { stTable with committed := ["A"] }
    { tableExists := true, committed := ["A", "B"], txOpen := false, txDeletes := [],
      begins := 1, trace := [Event.migrateRun "B"] }
    (Or.inl rfl) rfl

theorem checkReservedIDAux_some_shape (ms : List Migration) (e : Err)
    (h : checkReservedIDAux ms = some e) : ∃ d, e = .reservedIDError d := by
  induction ms with
  | nil => simp [checkReservedIDAux] at h
  | cons m rest ih =>
      rw [checkReservedIDAux] at h
      by_cases hm : m.ID = initSchemaMigrationID
      · rw [if_pos hm] at h
        simp only [Option.some.injEq] at h
        exact ⟨m.ID, h.symm⟩
      · rw [if_neg hm] at h
        exact ih h

theorem runMigration_err_inv (m : Migration) (s : St) (e : Err) (s₂ : St)
    (h : runMigration m s = .err e s₂) :
    s₂.committed = s.committed ∧ s₂.txOpen = s.txOpen ∧ s₂.txDeletes = s.txDeletes
      ∧ (∀ id, e = .migrateFailed id → id ∉ s₂.committed) := by
  by_cases h1 : m.ID = ""
  · rw [runMigration_missing m s h1] at h
    simp only [Res.err.injEq] at h
    rcases h with ⟨rfl, rfl⟩
    exact ⟨rfl, rfl, rfl, fun id heq => by simp at heq⟩
  by_cases ht : s.tableExists = true
  case neg =>
    have ht2 : s.tableExists = false := by simpa using ht
    rw [runMigration_noTable m s h1 ht2] at h
    simp only [Res.err.injEq] at h
    rcases h with ⟨rfl, rfl⟩
    exact ⟨rfl, rfl, rfl, fun id heq => by simp at heq⟩
  by_cases hc : m.ID ∈ s.committed
  · rw [runMigration_skip m s h1 ht hc] at h
    simp at h
  cases hmg : m.Migrate with
  | none =>
      rw [runMigration_nilForward m s h1 ht hc hmg] at h
      simp at h
  | some mOk =>
      cases mOk with
      | true =>
          rw [runMigration_apply m s h1 ht hc hmg] at h
          simp at h
      | false =>
          cases hr : m.Rollback with
          | none =>
              rw [runMigration_failNilInverse m s h1 ht hc hmg hr] at h
              simp at h
          | some r =>
              rw [runMigration_failed m s r h1 ht hc hmg hr] at h
              simp only [Res.err.injEq] at h
              rcases h with ⟨rfl, rfl⟩
              refine ⟨rfl, rfl, rfl, ?_⟩
              intro id heq
              simp only [Err.migrateFailed.injEq] at heq
              exact heq ▸ hc

theorem migrateLoop_err_inv (mid : String) (ms : List Migration) (s : St) (e : Err) (s₂ : St)
    (h : migrateLoop mid ms s = .err e s₂) :
    (∃ c, s₂.committed = s.committed ++ c) ∧ s₂.txOpen = s.txOpen
      ∧ s₂.txDeletes = s.txDeletes
      ∧ (∀ id, e = .migrateFailed id → id ∉ s₂.committed) := by
  induction ms generalizing s with
  | nil =>
      rw [show migrateLoop mid [] s = .ok () s from rfl] at h
      simp at h
  | cons m rest ih =>
      rw [migrateLoop] at h
      have hf := runMigration_frame m s
      rcases hrm : runMigration m s with ⟨u, s₁⟩ | ⟨e₁, s₁⟩ | s₁ <;> rw [hrm] at hf <;>
        simp only [Res.state_ok, Res.state_err, Res.state_panicked] at hf <;>
        rw [hrm] at h <;>
        simp only [Res.bind_ok, Res.bind_err, Res.bind_panicked] at h
      · obtain ⟨-, ho, hd, hb, ⟨c₁, hc₁⟩, -⟩ := hf
        by_cases hbr : mid ≠ "" ∧ m.ID = mid
        · rw [if_pos hbr] at h
          simp at h
        · rw [if_neg hbr] at h
          obtain ⟨⟨c₂, hc₂⟩, ho₂, hd₂, hfail⟩ := ih s₁ h
          exact ⟨⟨c₁ ++ c₂, by rw [hc₂, hc₁, List.append_assoc]⟩,
            ho₂.trans ho, hd₂.trans hd, hfail⟩
      · simp only [Res.err.injEq] at h
        rcases h with ⟨rfl, rfl⟩
        obtain ⟨hcom, ho, hd, hfail⟩ := runMigration_err_inv m s _ s₁ hrm
        exact ⟨⟨[], by simp [hcom]⟩, ho, hd, hfail⟩
      · simp at h

theorem withDeferredRollback_err_inv {α : Type} (r : Res α) (e : Err) (s' : St)
    (h : withDeferredRollback r = .err e s') :
    ∃ sb, r = .err e sb ∧ s' = rollbackTx sb := by
  cases r with
  | ok a s => simp [withDeferredRollback] at h
  | err e2 s =>
      simp only [withDeferredRollback, Res.err.injEq] at h
      rcases h with ⟨rfl, rfl⟩
      exact ⟨s, rfl, rfl⟩
  | panicked s => simp [withDeferredRollback] at h

theorem migrateTail_deferred_err (g : Engine) (mid : String) (X : St) (e : Err) (s' : St)
    (hX1 : X.txOpen = true) (hX2 : X.txDeletes = [])
    (h : withDeferredRollback (migrateTail g mid X) = .err e s') :
    s'.txOpen = false ∧ s'.txDeletes = []
      ∧ (∃ c, s'.committed = X.committed ++ c)
      ∧ (∀ id, e = .migrateFailed id → id ∉ s'.committed) := by
  obtain ⟨sb, hb, hs'⟩ := withDeferredRollback_err_inv _ e s' h
  rw [migrateTail] at hb
  rcases hml : migrateLoop mid g.migrations X with ⟨u, sL⟩ | ⟨eL, sL⟩ | sL <;>
    rw [hml] at hb <;>
    simp only [Res.bind_ok, Res.bind_err, Res.bind_panicked] at hb
  · simp at hb
  · simp only [Res.err.injEq] at hb
    rcases hb with ⟨rfl, rfl⟩
    obtain ⟨⟨c, hc⟩, ho, hd, hfail⟩ := migrateLoop_err_inv mid g.migrations X _ sL hml
    have hopen : sL.txOpen = true := ho.trans hX1
    have hrtx : rollbackTx sL = { sL with txOpen := false, txDeletes := [] } := by
      rw [rollbackTx, if_pos hopen]
    subst hs'
    rw [hrtx]
    exact ⟨rfl, rfl, ⟨c, hc⟩, hfail⟩
  · simp at hb

theorem runInitSchema_err_inv (g : Engine) (X : St) (e : Err) (s₂ : St)
    (h : runInitSchema g X = .err e s₂) :
    (∃ c, s₂.committed = X.committed ++ c) ∧ s₂.txOpen = X.txOpen
      ∧ s₂.txDeletes = X.txDeletes
      ∧ (∀ id, e = .migrateFailed id → id ∉ s₂.committed) := by
  rw [runInitSchema] at h
  cases hi : g.initSchema with
  | none =>
      rw [hi] at h
      simp at h
  | some isOk =>
      rw [hi] at h
      cases isOk with
      | false =>
          simp only [Bool.false_eq_true, if_false, Res.err.injEq] at h
          rcases h with ⟨rfl, rfl⟩
          exact ⟨⟨[], by simp [addEvent]⟩, rfl, rfl, fun id heq => by simp at heq⟩
      | true =>
          simp only [if_true] at h
          rw [insertMigration] at h
          by_cases htE : (addEvent X .initSchemaRun).tableExists = true
          · simp only [htE, Bool.not_true, Bool.false_eq_true, if_false] at h
            by_cases hcon : (addEvent X .initSchemaRun).committed.contains initSchemaMigrationID
            · simp only [hcon, if_true, Res.bind_err, Res.err.injEq] at h
              rcases h with ⟨rfl, rfl⟩
              exact ⟨⟨[], by simp [addEvent]⟩, rfl, rfl, fun id heq => by simp at heq⟩
            · simp only [hcon, Bool.false_eq_true, if_false, Res.bind_ok] at h
              rw [runMigrationList_eq_loop] at h
              obtain ⟨⟨c, hc⟩, ho, hd, hfail⟩ := migrateLoop_err_inv "" g.migrations _ _ s₂ h
              refine ⟨⟨initSchemaMigrationID :: c, ?_⟩, ho, hd, hfail⟩
              rw [hc]
              simp [addEvent]
          · have htE2 : (addEvent X .initSchemaRun).tableExists = false := by simpa using htE
            simp only [htE2, Bool.not_false, if_true, Res.bind_err, Res.err.injEq] at h
            rcases h with ⟨rfl, rfl⟩
            exact ⟨⟨[], by simp [addEvent]⟩, rfl, rfl, fun id heq => by simp at heq⟩

theorem migrate_eq_of_checks (g : Engine) (mid : String) (s : St)
    (hm : hasMigrations g = true) (hR : checkReservedID g = none)
    (hD : checkDuplicatedID g = none) :
    migrate g mid s = withDeferredRollback (migrateBody g mid (beginTx s)) := by
  rw [migrate]
  simp only [hm, Bool.not_true, Bool.false_eq_true, if_false]
  rw [hR, hD]

/-- C2 (amended): a `migrate` operation entered from a quiescent state
(no transaction open) that returns an error leaves no transaction open
and no pending DELETE; the history only ever grows by appending (no
record is removed); and no `AppliedRecord` exists for the step whose
forward action produced the error.  Records inserted for steps newly
applied earlier in the same failed operation, however, remain —
`insertMigration` writes outside the rolled-back transaction (see the
counterexample). -/
theorem c2_error_no_failed_record (g : Engine) (mid : String) (s : St) (e : Err) (s' : St)
    (hq1 : s.txOpen = false) (hq2 : s.txDeletes = [])
    (h : migrate g mid s = .err e s') :
    s'.txOpen = false ∧ s'.txDeletes = []
    ∧ (∃ c, s'.committed = s.committed ++ c)
    ∧ (∀ id, e = .migrateFailed id → id ∉ s'.committed) := by
  by_cases hm : hasMigrations g = true
  · rcases hR : checkReservedID g with _ | eR
    · rcases hD : checkDuplicatedID g with _ | eD
      · rw [migrate_eq_of_checks g mid s hm hR hD] at h
        cases hi : g.initSchema with
        | none =>
            have hbody : migrateBody g mid (beginTx s)
                = migrateTail g mid (afterCreate (beginTx s)) := by
              rw [migrateBody_eq, hi]
            rw [hbody] at h
            exact migrateTail_deferred_err g mid (afterCreate (beginTx s)) e s' rfl rfl h
        | some b =>
            have hbody : migrateBody g mid (beginTx s) =
                (canInitializeSchema (afterCreate (beginTx s))).bind fun can s₂ =>
                  if can then
                    (runInitSchema g s₂).bind fun _ s₃ => .ok () (commitTx s₃)
                  else migrateTail g mid s₂ := by
              rw [migrateBody_eq, hi]
            rw [hbody, canInitializeSchema_spec (afterCreate (beginTx s)) rfl] at h
            simp only [Res.bind_ok] at h
            by_cases hcv : ((!((afterCreate (beginTx s)).committed.contains
                initSchemaMigrationID))
                && ((afterCreate (beginTx s)).committed.length == 0)) = true
            · simp only [hcv, if_true] at h
              obtain ⟨sb, hb, hs2⟩ := withDeferredRollback_err_inv _ e s' h
              rcases hri : runInitSchema g (afterCreate (beginTx s))
                  with ⟨u, sI⟩ | ⟨eI, sI⟩ | sI <;> rw [hri] at hb <;>
                simp only [Res.bind_ok, Res.bind_err, Res.bind_panicked] at hb
              · simp at hb
              · simp only [Res.err.injEq] at hb
                rcases hb with ⟨rfl, rfl⟩
                obtain ⟨⟨c, hc⟩, ho, hd, hfail⟩ := runInitSchema_err_inv g _ _ sI hri
                have hopen : sI.txOpen = true := by
                  rw [ho]
                  rfl
                subst hs2
                rw [rollbackTx, if_pos hopen]
                refine ⟨rfl, rfl, ⟨c, by simpa using hc⟩, ?_⟩
                intro id heq
                simpa using hfail id heq
              · simp at hb
            · have hcv2 : ((!((afterCreate (beginTx s)).committed.contains
                  initSchemaMigrationID))
                  && ((afterCreate (beginTx s)).committed.length == 0)) = false := by
                simpa using hcv
              simp only [hcv2, Bool.false_eq_true, if_false] at h
              exact migrateTail_deferred_err g mid (afterCreate (beginTx s)) e s' rfl rfl h
      · rw [migrate] at h
        simp only [hm, Bool.not_true, Bool.false_eq_true, if_false] at h
        rw [hR, hD] at h
        simp only [Res.err.injEq] at h
        rcases h with ⟨rfl, rfl⟩
        obtain ⟨d, hd, -, -⟩ := checkDuplicatedIDAux_some g.migrations [] eD hD
        refine ⟨hq1, hq2, ⟨[], by simp⟩, ?_⟩
        intro id heq
        rw [hd] at heq
        simp at heq
    · rw [migrate] at h
      simp only [hm, Bool.not_true, Bool.false_eq_true, if_false] at h
      rw [hR] at h
      simp only [Res.err.injEq] at h
      rcases h with ⟨rfl, rfl⟩
      obtain ⟨d, hd⟩ := checkReservedIDAux_some_shape g.migrations eR hR
      refine ⟨hq1, hq2, ⟨[], by simp⟩, ?_⟩
      intro id heq
      rw [hd] at heq
      simp at heq
  · have hm2 : hasMigrations g = false := by simpa using hm
    rw [migrate] at h
    simp only [hm2, Bool.not_false, if_true, Res.err.injEq] at h
    rcases h with ⟨rfl, rfl⟩
    exact ⟨hq1, hq2, ⟨[], by simp⟩, fun id heq => by simp at heq⟩

/-- Witness for C2 (amended): step A succeeds, step B fails; after the
error no transaction is open, the history grew only by A's record, and
no record exists for the failed step B. -/
theorem c2_witness :
    ((Migrate gPartialFail stFresh).state.txOpen = false)
    ∧ (∃ c, (Migrate gPartialFail stFresh).state.committed = stFresh.committed ++ c)
    ∧ "B" ∉ (Migrate gPartialFail stFresh).state.committed := by
  have h := c2_error_no_failed_record gPartialFail "B" stFresh (.migrateFailed "B")
    { tableExists := true, committed := ["A"], txOpen := false, txDeletes := [],
      begins := 1, trace := [.migrateRun "A", .migrateRun "B", .rollbackRun "B"] }
    rfl rfl rfl
  exact ⟨h.1, h.2.2.1, h.2.2.2 "B" rfl⟩

theorem lastMigrationID_mem (ms : List Migration) (hne : ms ≠ []) :
    lastMigrationID ms ∈ ms.map Migration.ID := by
  rw [lastMigrationID]
  cases hl : ms.getLast? with
  | none =>
      rw [List.getLast?_eq_none_iff] at hl
      exact absurd hl hne
  | some m =>
      have hmem : m ∈ ms.getLast? := by rw [Option.mem_def, hl]
      obtain ⟨hne2, heq⟩ := List.mem_getLast?_eq_getLast hmem
      exact List.mem_map_of_mem Migration.ID (heq ▸ List.getLast_mem hne2)

theorem takeUpTo_lastMigrationID (ms : List Migration)
    (hn : (ms.map Migration.ID).Nodup) : takeUpTo (lastMigrationID ms) ms = ms := by
  induction ms with
  | nil => rfl
  | cons m rest ih =>
      cases rest with
      | nil =>
          rw [takeUpTo]
          split
          · rfl
          · rfl
      | cons m2 rest2 =>
          have hlast : lastMigrationID (m :: m2 :: rest2) = lastMigrationID (m2 :: rest2) := by
            rw [lastMigrationID, lastMigrationID, List.getLast?_cons_cons]
          simp only [List.map_cons, List.nodup_cons] at hn
          rw [takeUpTo, hlast, if_neg ?hcond]
          case hcond =>
            rintro ⟨hne2, heq⟩
            exact hn.1 (heq ▸ lastMigrationID_mem (m2 :: rest2) (by simp))
          rw [ih (by simp only [List.map_cons, List.nodup_cons]; exact hn.2)]

theorem canInitializeSchema_false_of (s : St) (ht : s.tableExists = true)
    (hq : initSchemaMigrationID ∈ s.committed ∨ s.committed ≠ []) :
    canInitializeSchema s = .ok false s := by
  rcases hq with h | h
  · exact canInitializeSchema_false_of_bootstrap s ht h
  · exact canInitializeSchema_false_of_nonempty s ht h

theorem insertMigration_ok (id : String) (s : St) (ht : s.tableExists = true)
    (hc : id ∉ s.committed) :
    insertMigration id s = .ok () { s with committed := s.committed ++ [id] } := by
  simp [insertMigration, ht, hc]

theorem runInitSchema_ok_inv (g : Engine) (X : St) (sI : St) (u : Unit)
    (hn : (g.migrations.map Migration.ID).Nodup)
    (h : runInitSchema g X = .ok u sI) :
    initSchemaMigrationID ∈ sI.committed
    ∧ (∀ m ∈ g.migrations, m.ID ≠ "" ∧ m.ID ∈ sI.committed)
    ∧ sI.tableExists = true ∧ sI.txOpen = X.txOpen ∧ sI.txDeletes = X.txDeletes := by
  rw [runInitSchema] at h
  cases hi : g.initSchema with
  | none =>
      rw [hi] at h
      simp at h
  | some isOk =>
      rw [hi] at h
      cases isOk with
      | false => simp at h
      | true =>
          simp only [if_true] at h
          by_cases htE : (addEvent X Event.initSchemaRun).tableExists = true
          · by_cases hcon : initSchemaMigrationID ∈ (addEvent X Event.initSchemaRun).committed
            · rw [insertMigration] at h
              simp [htE, hcon] at h
            · rw [insertMigration_ok initSchemaMigrationID (addEvent X Event.initSchemaRun)
                htE hcon] at h
              simp only [Res.bind_ok] at h
              rw [runMigrationList_eq_loop] at h
              obtain ⟨hsI, -⟩ := migrateLoop_ok_spec "" g.migrations _ sI hn h
              have hids : ∀ m ∈ g.migrations, m.ID ≠ "" := by
                have := (migrateLoop_ok_spec "" g.migrations _ sI hn h).2
                intro m hm
                exact this m (by rw [takeUpTo_empty]; exact hm)
              subst hsI
              refine ⟨by simp [addEvent], ?_, by simpa [addEvent] using htE, rfl, rfl⟩
              intro m hm
              refine ⟨hids m hm, ?_⟩
              by_cases hc : m.ID ∈ (addEvent X Event.initSchemaRun).committed
                  ++ [initSchemaMigrationID]
              · exact List.mem_append_left _ hc
              · refine List.mem_append_right _ ?_
                refine List.mem_map_of_mem Migration.ID ?_
                rw [takeUpTo_empty]
                refine List.mem_filter.mpr ⟨hm, ?_⟩
                simpa using hc
          · rw [insertMigration] at h
            simp [htE] at h

theorem Migrate_ok_checks (g : Engine) (s : St) (s₁ : St) (h : Migrate g s = .ok () s₁) :
    hasMigrations g = true ∧ checkReservedID g = none ∧ checkDuplicatedID g = none := by
  rw [Migrate] at h
  by_cases hm : hasMigrations g = true
  · simp only [hm, Bool.not_true, Bool.false_eq_true, if_false] at h
    exact migrate_ok_checks g _ s s₁ h
  · have hm2 : hasMigrations g = false := by simpa using hm
    simp [hm2] at h

theorem Migrate_ok_inv (g : Engine) (s : St) (s₁ : St) (h : Migrate g s = .ok () s₁) :
    s₁.tableExists = true ∧ s₁.txOpen = false ∧ s₁.txDeletes = []
    ∧ (∀ m ∈ takeUpTo (lastMigrationID g.migrations) g.migrations,
        m.ID ≠ "" ∧ m.ID ∈ s₁.committed)
    ∧ (g.initSchema.isSome = true →
        (initSchemaMigrationID ∈ s₁.committed ∨ s₁.committed ≠ [])) := by
  obtain ⟨hm, hR, hD⟩ := Migrate_ok_checks g s s₁ h
  have hn := (checkDuplicatedIDAux_none_nodup g.migrations [] hD).1
  rw [Migrate] at h
  simp only [hm, Bool.not_true, Bool.false_eq_true, if_false] at h
  rw [migrate_eq_of_checks g _ s hm hR hD] at h
  cases hi : g.initSchema with
  | none =>
      have hbody : migrateBody g (lastMigrationID g.migrations) (beginTx s)
          = migrateTail g (lastMigrationID g.migrations) (afterCreate (beginTx s)) := by
        rw [migrateBody_eq, hi]
      rw [hbody] at h
      obtain ⟨hs₁, hids⟩ := migrateTail_deferred_ok g _ (afterCreate (beginTx s)) s₁ hn rfl h
      subst hs₁
      refine ⟨rfl, rfl, rfl, ?_, ?_⟩
      · intro m hm2
        refine ⟨hids m hm2, ?_⟩
        by_cases hc : m.ID ∈ (afterCreate (beginTx s)).committed
        · exact List.mem_append_left _ hc
        · refine List.mem_append_right _ ?_
          refine List.mem_map_of_mem Migration.ID ?_
          refine List.mem_filter.mpr ⟨hm2, ?_⟩
          simpa using hc
      · intro him
        simp at him
  | some b =>
      have hbody : migrateBody g (lastMigrationID g.migrations) (beginTx s) =
          (canInitializeSchema (afterCreate (beginTx s))).bind fun can s₂ =>
            if can then
              (runInitSchema g s₂).bind fun _ s₃ => .ok () (commitTx s₃)
            else migrateTail g (lastMigrationID g.migrations) s₂ := by
        rw [migrateBody_eq, hi]
      rw [hbody, canInitializeSchema_spec (afterCreate (beginTx s)) rfl] at h
      simp only [Res.bind_ok] at h
      by_cases hcv : ((!((afterCreate (beginTx s)).committed.contains initSchemaMigrationID))
          && ((afterCreate (beginTx s)).committed.length == 0)) = true
      · simp only [hcv, if_true] at h
        rcases hri : runInitSchema g (afterCreate (beginTx s))
            with ⟨u, sI⟩ | ⟨eI, sI⟩ | sI <;> rw [hri] at h <;>
          simp only [Res.bind_ok, Res.bind_err, Res.bind_panicked] at h
        · simp only [withDeferredRollback, Res.ok.injEq, true_and] at h
          obtain ⟨hboot, hall, htE, hto, htd⟩ :=
            runInitSchema_ok_inv g (afterCreate (beginTx s)) sI u hn hri
          have htd2 : sI.txDeletes = [] := by simpa using htd
          have hcommit : (rollbackTx (commitTx sI)).committed = sI.committed := by
            rw [rollbackTx]
            split
            · simp [commitTx, htd2, applyDeletes_nil]
            · simp [commitTx, htd2, applyDeletes_nil]
          subst h
          refine ⟨?_, ?_, ?_, ?_, ?_⟩
          · rw [rollbackTx]
            split
            · simpa [commitTx] using htE
            · simpa [commitTx] using htE
          · rw [rollbackTx]
            split
            · rfl
            · simp [commitTx]
          · rw [rollbackTx]
            split
            · rfl
            · simp [commitTx]
          · intro m hm2
            rw [hcommit]
            exact hall m (takeUpTo_subset _ _ m hm2)
          · intro hsome2
            rw [hcommit]
            exact Or.inl hboot
        · simp [withDeferredRollback] at h
        · simp [withDeferredRollback] at h
      · have hcv2 : ((!((afterCreate (beginTx s)).committed.contains initSchemaMigrationID))
            && ((afterCreate (beginTx s)).committed.length == 0)) = false := by
          simpa using hcv
        simp only [hcv2, Bool.false_eq_true, if_false] at h
        obtain ⟨hs₁, hids⟩ := migrateTail_deferred_ok g _ (afterCreate (beginTx s)) s₁ hn rfl h
        subst hs₁
        refine ⟨rfl, rfl, rfl, ?_, ?_⟩
        · intro m hm2
          refine ⟨hids m hm2, ?_⟩
          by_cases hc : m.ID ∈ (afterCreate (beginTx s)).committed
          · exact List.mem_append_left _ hc
          · refine List.mem_append_right _ ?_
            refine List.mem_map_of_mem Migration.ID ?_
            refine List.mem_filter.mpr ⟨hm2, ?_⟩
            simpa using hc
        · intro hsome2
          by_cases hcon : initSchemaMigrationID ∈ (afterCreate (beginTx s)).committed
          · left
            exact List.mem_append_left _ hcon
          · right
            have hb : ((afterCreate (beginTx s)).committed.length == 0) = false := by
              rcases Bool.and_eq_false_iff.mp hcv2 with h1 | h1
              · exfalso
                exact hcon (by simpa using h1)
              · exact h1
            have hne2 : (afterCreate (beginTx s)).committed ≠ [] := by
              intro he
              rw [he] at hb
              simp at hb
            intro happ
            exact hne2 (List.append_eq_nil.mp happ).1

/-- C1: immediately after a successful `Migrate`, a second `Migrate`
with the same catalog succeeds and returns the very same state except
for the transaction counter: the history is identical and the trace is
unchanged — zero forward actions (and no initializer) execute on the
second call, every step being found applied by `migrationRan` and
skipped. -/
theorem c1_migrate_idempotent (g : Engine) (s : St) (s₁ : St)
    (h : Migrate g s = .ok () s₁) :
    Migrate g s₁ = .ok () { s₁ with begins := s₁.begins + 1 } := by
  obtain ⟨ht₁, ho₁, hd₁, hall, hboot⟩ := Migrate_ok_inv g s s₁ h
  obtain ⟨hm, hR, hD⟩ := Migrate_ok_checks g s s₁ h
  rw [Migrate]
  simp only [hm, Bool.not_true, Bool.false_eq_true, if_false]
  rw [migrate_eq_of_checks g _ s₁ hm hR hD]
  have hloop : migrateLoop (lastMigrationID g.migrations) g.migrations
      (afterCreate (beginTx s₁)) = .ok () (afterCreate (beginTx s₁)) := by
    apply migrateLoop_all_ran _ _ _ rfl
    intro m hm2
    exact ⟨(hall m hm2).1, by simpa using (hall m hm2).2⟩
  have htail : withDeferredRollback
      (migrateTail g (lastMigrationID g.migrations) (afterCreate (beginTx s₁)))
      = .ok () { s₁ with begins := s₁.begins + 1 } := by
    rw [migrateTail, hloop]
    simp only [Res.bind_ok, withDeferredRollback, Res.ok.injEq, true_and]
    cases s₁ with
    | mk a b c d e f =>
        simp only [St.mk.injEq] at *
        simp [rollbackTx, commitTx, beginTx, afterCreate, applyDeletes_nil, ht₁, ho₁, hd₁]
  cases hi : g.initSchema with
  | none =>
      have hbody : migrateBody g (lastMigrationID g.migrations) (beginTx s₁)
          = migrateTail g (lastMigrationID g.migrations) (afterCreate (beginTx s₁)) := by
        rw [migrateBody_eq, hi]
      rw [hbody]
      exact htail
  | some b =>
      have hbody : migrateBody g (lastMigrationID g.migrations) (beginTx s₁) =
          (canInitializeSchema (afterCreate (beginTx s₁))).bind fun can s₂ =>
            if can then
              (runInitSchema g s₂).bind fun _ s₃ => .ok () (commitTx s₃)
            else migrateTail g (lastMigrationID g.migrations) s₂ := by
        rw [migrateBody_eq, hi]
      rw [hbody]
      have hq := hboot (by rw [hi]; rfl)
      rw [canInitializeSchema_false_of (afterCreate (beginTx s₁)) rfl (by simpa using hq)]
      simp only [Res.bind_ok, Bool.false_eq_true, if_false]
      exact htail

/-- Witness for C1: after migrating the three-step catalog from a
fresh database, a second `Migrate` changes nothing but the transaction
counter. -/
theorem c1_witness :
    Migrate gThree
      { tableExists := true, committed := ["A", "B", "C"], txOpen := false,
        txDeletes := [], begins := 1,
        trace := [.migrateRun "A", .migrateRun "B", .migrateRun "C"] }
    = .ok () { tableExists := true, committed := ["A", "B", "C"], txOpen := false,
               txDeletes := [], begins := 2,
               trace := [.migrateRun "A", .migrateRun "B", .migrateRun "C"] } := by
  exact c1_migrate_idempotent gThree stFresh
    { tableExists := true, committed := ["A", "B", "C"], txOpen := false,
      txDeletes := [], begins := 1,
      trace := [.migrateRun "A", .migrateRun "B", .migrateRun "C"] } rfl

end Sqlxmigrate
